import Mathlib

/-!
Verification development for the `phaser-live-atlas` repository.

The definitions below are a shallow embedding of the TypeScript sources:
* the shelf bin packer (`src/unnamed/part_014`, class `ShelfPack` with
  `Bin` and `Shelf`),
* the transparency trimmer (`src/src/live-atlas/lib/imageTrimming.ts`),
* the state-relevant operations of the atlas engine
  (`src/src/live-atlas/lib/LiveAtlas.ts`).

JavaScript numbers are modelled by `Int` (all values arising in the
claims are integers, and `Math.ceil(x * 1.25)` is exact on them);
JavaScript objects used as string-keyed dictionaries are modelled by
association lists; `null`/`undefined` results are modelled by `Option`.
A code path on which the JavaScript would throw a `TypeError`
(dereferencing `null`) is modelled by returning `none` and leaving the
state unchanged; such paths are unreachable from the guarded callers.
-/

namespace LiveAtlasProof

/-! ### Association-list helpers (JS objects used as dictionaries) -/

/-- First value stored under `key`, as JS property lookup `obj[key]`. -/
def lookupEntry {α : Type} : List (String × α) → String → Option α
  | [], _ => none
  | (k, v) :: rest, key => if k = key then some v else lookupEntry rest key

/-- Replace the value stored under `key` (no change when absent).
This models a JS property write through an alias that is known to be
the stored object. -/
def replaceEntry {α : Type} : List (String × α) → String → α → List (String × α)
  | [], _, _ => []
  | (k, v) :: rest, key, v' =>
    if k = key then (k, v') :: rest else (k, v) :: replaceEntry rest key v'

/-- JS property write `obj[key] = v`: overwrite when present, append when
absent. -/
def insertEntry {α : Type} (l : List (String × α)) (key : String) (v : α) :
    List (String × α) :=
  if (lookupEntry l key).isSome then replaceEntry l key v else l ++ [(key, v)]

/-- JS `delete obj[key]`. -/
def eraseEntry {α : Type} : List (String × α) → String → List (String × α)
  | [], _ => []
  | (k, v) :: rest, key => if k = key then rest else (k, v) :: eraseEntry rest key

/-! ### The bin packer (`src/unnamed/part_014`) -/

/-- `class Bin` (packer allocation unit). -/
structure Bin where
  id : String
  x : Int
  y : Int
  width : Int
  height : Int
  maxw : Int
  maxh : Int
  refcount : Int
deriving Repr, DecidableEq

/-- The `Bin` constructor: `maxw = maxw || width`, `maxh = maxh || height`
(a `0` argument falls back, as JS `||` treats `0` as falsy), and
`refcount = 0`. -/
def Bin.make (id : String) (x y width height maxw maxh : Int) : Bin where
  id := id
  x := x
  y := y
  width := width
  height := height
  maxw := if maxw = 0 then width else maxw
  maxh := if maxh = 0 then height else maxh
  refcount := 0

/-- `class Shelf`: one horizontal strip of the packed surface. -/
structure Shelf where
  y : Int
  width : Int
  height : Int
  x : Int
  free : Int
deriving Repr, DecidableEq

/-- The `Shelf` constructor: `x = 0`, `free = width`. -/
def Shelf.make (y width height : Int) : Shelf where
  y := y
  width := width
  height := height
  x := 0
  free := width

/-- `Shelf.alloc(w, h, id)`: `null` when `w > free || h > height`, else a
fresh `Bin(id, x, this.y, w, h, w, this.height)` while `x += w` and
`free -= w`. -/
def Shelf.alloc (s : Shelf) (w h : Int) (id : String) : Option (Bin × Shelf) :=
  if w > s.free ∨ h > s.height then none
  else some (Bin.make id s.x s.y w h w s.height,
    { s with x := s.x + w, free := s.free - w })

/-- `Shelf.resize(w)`: `free += w - width; width = w`. -/
def Shelf.resize (s : Shelf) (w : Int) : Shelf :=
  { s with free := s.free + w - s.width, width := w }

/-- `class ShelfPack` state: surface size, shelves, free bins, the height
histogram `stats`, and the id→bin dictionary `bins`. -/
structure ShelfPack where
  autoResize : Bool
  width : Int
  height : Int
  shelves : List Shelf
  freebins : List Bin
  stats : List (Int × Int)
  bins : List (String × Bin)
deriving Repr, DecidableEq

/-- The `ShelfPack` constructor (empty shelves/freebins/stats/bins). -/
def ShelfPack.make (w h : Int) (autoResize : Bool) : ShelfPack where
  autoResize := autoResize
  width := w
  height := h
  shelves := []
  freebins := []
  stats := []
  bins := []

/-- `this.stats[h] | 0`: a missing histogram entry reads as `0`. -/
def statGet (stats : List (Int × Int)) (h : Int) : Int :=
  match stats.find? (fun p => p.1 = h) with
  | some p => p.2
  | none => 0

/-- Histogram write `this.stats[h] = v`. -/
def statSet (stats : List (Int × Int)) (h v : Int) : List (Int × Int) :=
  if (stats.find? (fun p => p.1 = h)).isSome then
    stats.map (fun p => if p.1 = h then (p.1, v) else p)
  else stats ++ [(h, v)]

/-- `ShelfPack.getBin(id)`. -/
def ShelfPack.getBin (st : ShelfPack) (id : String) : Option Bin :=
  lookupEntry st.bins id

/-- `ShelfPack.ref(bin)`: increment the refcount, record the bin height in
`stats` when the refcount becomes `1`, and return the updated bin.  The
state update at `bins[bin.id]` models the in-place mutation of the stored
object (every internal call passes the stored object itself). -/
def ShelfPack.refBin (st : ShelfPack) (bin : Bin) : Bin × ShelfPack :=
  let b : Bin := { bin with refcount := bin.refcount + 1 }
  let stats :=
    if b.refcount = 1 then statSet st.stats b.height (statGet st.stats b.height + 1)
    else st.stats
  (b, { st with bins := replaceEntry st.bins bin.id b, stats := stats })

/-- `ShelfPack.unref(bin)`: no-op returning `0` when the refcount is
already `0`; else decrement, and on reaching `0` decrement the histogram,
delete `bins[bin.id]` and push the bin on the free list.  Returns the new
refcount together with the updated state and bin. -/
def ShelfPack.unref (st : ShelfPack) (bin : Bin) : Int × ShelfPack × Bin :=
  if bin.refcount = 0 then (0, st, bin)
  else
    let b : Bin := { bin with refcount := bin.refcount - 1 }
    if b.refcount = 0 then
      (0,
        { st with
          stats := statSet st.stats b.height (statGet st.stats b.height - 1)
          bins := eraseEntry st.bins b.id
          freebins := st.freebins ++ [b] },
        b)
    else (b.refcount, { st with bins := replaceEntry st.bins b.id b }, b)

/-- `ShelfPack.allocFreebin(index, w, h, id)`: splice the free bin out,
overwrite its `id`/`width`/`height`, reset the refcount, store it under
`id` and `ref` it.  `none` when `index` is out of range (the JS would
dereference `undefined`; unreachable from `packOne`). -/
def ShelfPack.allocFreebin (st : ShelfPack) (index : Nat) (w h : Int)
    (id : String) : Option Bin × ShelfPack :=
  match st.freebins.get? index with
  | none => (none, st)
  | some bin =>
    let b : Bin := { bin with id := id, width := w, height := h, refcount := 0 }
    let st1 : ShelfPack :=
      { st with
        freebins := st.freebins.eraseIdx index
        bins := insertEntry st.bins id b }
    let (b2, st2) := st1.refBin b
    (some b2, st2)

/-- `ShelfPack.allocShelf(index, w, h, id)`: allocate on the indexed shelf,
store the bin under `id` and `ref` it.  `none` when the index is out of
range or `Shelf.alloc` fails (on those paths the JS throws; unreachable
from `packOne`). -/
def ShelfPack.allocShelf (st : ShelfPack) (index : Nat) (w h : Int)
    (id : String) : Option Bin × ShelfPack :=
  match st.shelves.get? index with
  | none => (none, st)
  | some s =>
    match s.alloc w h id with
    | none => (none, st)
    | some (bin, s') =>
      let st1 : ShelfPack :=
        { st with
          shelves := st.shelves.set index s'
          bins := insertEntry st.bins id bin }
      let (b2, st2) := st1.refBin bin
      (some b2, st2)

/-- `ShelfPack.resize(w, h)` (without the unused `usePOT` branch): set the
surface size and resize every shelf to the new width. -/
def ShelfPack.resize (st : ShelfPack) (w h : Int) : ShelfPack :=
  { st with width := w, height := h, shelves := st.shelves.map (fun s => s.resize w) }

/-- `Math.ceil(x * 1.25)` on integers, via `ceil(5x/4) = -floor(-5x/4)`
(exact: `1.25` and the products are exactly representable). -/
def jsCeil125 (x : Int) : Int :=
  -(Int.fdiv (-(5 * x)) 4)

/-- The auto-resize step at the end of `packOne`: grow the width when
`w1 <= h1 || w > w1`, the height when `h1 < w1 || h > h1`, each to
`Math.ceil(Math.max(request, current) * 1.25)`, then `resize`. -/
def ShelfPack.grow (st : ShelfPack) (w h : Int) : ShelfPack :=
  let h1 := st.height
  let w1 := st.width
  let w2 := if w1 ≤ h1 ∨ w > w1 then jsCeil125 (max w w1) else w1
  let h2 := if h1 < w1 ∨ h > h1 then jsCeil125 (max h h1) else h1
  st.resize w2 h2

/-- Which candidate the `best` record of `packOne` currently points to:
a free-bin index (`best.freebin`) or a shelf index (`best.shelf`).  The
source keeps at most one of the two set, switching to the shelf on a
strictly smaller waste. -/
inductive BestRef : Type
  | fb (i : Nat)
  | sh (i : Nat)
deriving Repr, DecidableEq

/-- The free-bin loop of `packOne` (source lines 214–233): an exact
`maxw`/`maxh` match returns its index at once (`Sum.inl`); otherwise the
loop tracks the fitting bin of minimal waste (`maxw*maxh - w*h`, strict
`<`, first found wins). -/
def freebinScan : List Bin → Nat → Int → Int → Option (Nat × Int) →
    Sum Nat (Option (Nat × Int))
  | [], _, _, _, best => Sum.inr best
  | b :: rest, i, w, h, best =>
    if h = b.maxh ∧ w = b.maxw then Sum.inl i
    else if h > b.maxh ∨ w > b.maxw then freebinScan rest (i + 1) w h best
    else
      let waste := b.maxw * b.maxh - w * h
      let best' :=
        match best with
        | none => some (i, waste)
        | some (j, bw) => if waste < bw then some (i, waste) else some (j, bw)
      freebinScan rest (i + 1) w h best'

/-- The shelf loop of `packOne` (source lines 236–261): `y` accumulates
the shelf heights; a shelf without room in width is skipped; an exact
height match returns its index at once (`Sum.inl`); a taller shelf
updates the shared `best` record (clearing any free-bin candidate) on a
strictly smaller waste `(shelf.height - h) * w`.  Falling through yields
the final `best` and the total height `y`. -/
def shelfScan : List Shelf → Nat → Int → Int → Int → Option (BestRef × Int) →
    Sum Nat (Option (BestRef × Int) × Int)
  | [], _, _, _, y, best => Sum.inr (best, y)
  | s :: rest, i, w, h, y, best =>
    let y' := y + s.height
    if w > s.free then shelfScan rest (i + 1) w h y' best
    else if h = s.height then Sum.inl i
    else if h > s.height then shelfScan rest (i + 1) w h y' best
    else
      let waste := (s.height - h) * w
      let best' :=
        match best with
        | none => some (BestRef.sh i, waste)
        | some (r, bw) => if waste < bw then some (BestRef.sh i, waste) else some (r, bw)
      shelfScan rest (i + 1) w h y' best'

/-- One pass of the body of `ShelfPack.packOne(w, h, id)`.
`Sum.inl` is a completed call (allocation result and new state);
`Sum.inr` is the auto-resize path: the state after `grow`, on which the
source retries `packOne` recursively. -/
def packOneStep (st : ShelfPack) (w h : Int) (id : String) :
    Sum (Option Bin × ShelfPack) ShelfPack :=
  match st.getBin id with
  | some bin =>
    -- we packed this bin already: ref it and return it
    let (b, st') := st.refBin bin
    Sum.inl (some b, st')
  | none =>
    match freebinScan st.freebins 0 w h none with
    | Sum.inl i => Sum.inl (st.allocFreebin i w h id)
    | Sum.inr bestF =>
      match shelfScan st.shelves 0 w h 0 (bestF.map fun p => (BestRef.fb p.1, p.2)) with
      | Sum.inl i => Sum.inl (st.allocShelf i w h id)
      | Sum.inr (best, y) =>
        match best with
        | some (BestRef.fb i, _) => Sum.inl (st.allocFreebin i w h id)
        | some (BestRef.sh i, _) => Sum.inl (st.allocShelf i w h id)
        | none =>
          if h ≤ st.height - y ∧ w ≤ st.width then
            -- no free bins or shelves: add a shelf
            let st' : ShelfPack :=
              { st with shelves := st.shelves ++ [Shelf.make y st.width h] }
            Sum.inl (st'.allocShelf (st'.shelves.length - 1) w h id)
          else if st.autoResize then Sum.inr (st.grow w h)
          else Sum.inl (none, st)

/-- `ShelfPack.packOne(w, h, id)` with explicit fuel bounding the
auto-resize retries (`return this.packOne(w, h, id)`); exhausted fuel
returns `none` with the grown state. -/
def packOne (fuel : Nat) (st : ShelfPack) (w h : Int) (id : String) :
    Option Bin × ShelfPack :=
  match fuel with
  | 0 => (none, st)
  | n + 1 =>
    match packOneStep st w h id with
    | Sum.inl r => r
    | Sum.inr st' => packOne n st' w h id

/-- `ShelfPack.shrink()`: with at least one shelf, resize to the maximal
used shelf width (`max(shelf.width - shelf.free, w2)`, starting at `0`)
and the total shelf height. -/
def ShelfPack.shrink (st : ShelfPack) : ShelfPack :=
  if st.shelves = [] then st
  else
    st.resize (st.shelves.foldl (fun acc s => max (s.width - s.free) acc) 0)
      (st.shelves.foldl (fun acc s => acc + s.height) 0)

/-- An item handed to `ShelfPack.pack`. -/
structure PackItem where
  id : String
  width : Int
  height : Int
deriving Repr, DecidableEq

/-- The loop of `ShelfPack.pack`: items with a falsy (`0`) width or height
are skipped, failed allocations are skipped, successful allocations are
collected in order. -/
def packLoop (fuel : Nat) : ShelfPack → List PackItem → ShelfPack × List Bin
  | st, [] => (st, [])
  | st, item :: rest =>
    if item.width ≠ 0 ∧ item.height ≠ 0 then
      match packOne fuel st item.width item.height item.id with
      | (some b, st') =>
        let (st'', res) := packLoop fuel st' rest
        (st'', b :: res)
      | (none, st') => packLoop fuel st' rest
    else packLoop fuel st rest

/-- `ShelfPack.pack(bins)`: allocate each item via `packOne` in the order
given, then `shrink`. -/
def ShelfPack.pack (fuel : Nat) (st : ShelfPack) (items : List PackItem) :
    ShelfPack × List Bin :=
  let (st', res) := packLoop fuel st items
  (st'.shrink, res)

/-! ### The transparency trimmer (`src/src/live-atlas/lib/imageTrimming.ts`) -/

/-- An `ImageData`: row-major RGBA bytes, 4 per pixel; reading past the
end of `data` yields `undefined`, whose comparison `alpha > 0` is false,
so it reads as `0` here. -/
structure ImageData where
  width : Nat
  height : Nat
  data : List Nat
deriving Repr, DecidableEq

/-- The `initialTrim` bounds argument of `trimImageEdges`. -/
structure TrimBounds where
  x : Nat
  y : Nat
  width : Nat
  height : Nat
deriving Repr, DecidableEq

/-- `checkRowIsTotallyTransparent(imageData, yPos)`: scans `x` over the
full image width (`0 ≤ x < imageData.width`) and reports whether every
alpha byte `data[(yPos*width + x)*4 + 3]` is `0`. -/
def checkRowIsTotallyTransparent (d : ImageData) (yPos : Nat) : Bool :=
  (List.range d.width).all fun x =>
    d.data.getD ((yPos * d.width + x) * 4 + 3) 0 = 0

/-- `checkColumnIsTotallyTransparent(imageData, xPos)`: scans `y` over the
full image height and reports whether every alpha byte
`data[(y*width + xPos)*4 + 3]` is `0`. -/
def checkColumnIsTotallyTransparent (d : ImageData) (xPos : Nat) : Bool :=
  (List.range d.height).all fun y =>
    d.data.getD ((y * d.width + xPos) * 4 + 3) 0 = 0

/-- The result record (`frame`) of `trimImageEdges`. -/
structure TrimFrame where
  x : Int
  y : Int
  originalWidth : Int
  originalHeight : Int
  trimmedWidth : Int
  trimmedHeight : Int
deriving Repr, DecidableEq

/-- JS `a || b` on numbers: `b` when `a` is `0` (falsy), else `a`. -/
def jsOr (a b : Int) : Int :=
  if a = 0 then b else a

/-- `trimImageEdges(imageData, initialTrim?)`: `null` on an empty buffer;
otherwise the four scans.  The top scan runs `yCursor` from `0` (not from
the top of the bounds) to `maxBottom = initialTrim.height + initialTrim.y`
and stops at the first row on which `checkRowIsTotallyTransparent` — which
reads the whole image row — fails; the bottom/left/right scans are the
mirror images.  A result trimmed to nothing forces both trimmed sizes
to `0`. -/
def trimImageEdges (d : ImageData) (initialTrim : Option TrimBounds) :
    Option TrimFrame :=
  if d.data.length = 0 then none
  else
    let fx : Int := match initialTrim with | some t => (t.x : Int) | none => 0
    let fy : Int := match initialTrim with | some t => (t.y : Int) | none => 0
    let ow : Int := match initialTrim with
      | some t => jsOr (t.width : Int) (d.width : Int)
      | none => (d.width : Int)
    let oh : Int := match initialTrim with
      | some t => jsOr (t.height : Int) (d.height : Int)
      | none => (d.height : Int)
    let maxLeft : Nat := match initialTrim with
      | some t => t.width + t.x
      | none => d.width
    let maxBottom : Nat := match initialTrim with
      | some t => t.height + t.y
      | none => d.height
    -- TOP TRIM: first row from the image top that is not transparent
    let yTop : Nat :=
      ((List.range maxBottom).find? fun y =>
        ¬ checkRowIsTotallyTransparent d y).getD maxBottom
    -- BOTTOM TRIM: last such row, `-1` when the whole range is transparent
    let yBot : Int :=
      match (List.range maxBottom).reverse.find? fun y =>
        ¬ checkRowIsTotallyTransparent d y with
      | some y => (y : Int)
      | none => -1
    -- LEFT TRIM: first column from the image left that is not transparent
    let xLeft : Nat :=
      ((List.range maxLeft).find? fun x =>
        ¬ checkColumnIsTotallyTransparent d x).getD maxLeft
    -- RIGHT TRIM: last such column, `-1` when all are transparent
    let xRight : Int :=
      match (List.range maxLeft).reverse.find? fun x =>
        ¬ checkColumnIsTotallyTransparent d x with
      | some x => (x : Int)
      | none => -1
    let trimmedHeight : Int := oh - yTop - ((maxBottom : Int) - 1 - yBot)
    let trimmedWidth : Int := ow - xLeft - ((maxLeft : Int) - 1 - xRight)
    let frame : TrimFrame :=
      { x := fx + xLeft
        y := fy + yTop
        originalWidth := ow
        originalHeight := oh
        trimmedWidth := trimmedWidth
        trimmedHeight := trimmedHeight }
    if frame.trimmedHeight ≤ 0 ∨ frame.trimmedWidth ≤ 0 then
      some { frame with trimmedWidth := 0, trimmedHeight := 0 }
    else some frame

/-- Alpha byte of the pixel at `(x, y)` (missing data reads `0`). -/
def pixelAlpha (d : ImageData) (x y : Nat) : Nat :=
  d.data.getD ((y * d.width + x) * 4 + 3) 0

/-- Two images agree on every pixel inside the given bounds. -/
def agreeOnBounds (d1 d2 : ImageData) (t : TrimBounds) : Prop :=
  ∀ x y, t.x ≤ x → x < t.x + t.width → t.y ≤ y → y < t.y + t.height →
    pixelAlpha d1 x y = pixelAlpha d2 x y

instance (d1 d2 : ImageData) (t : TrimBounds) :
    Decidable (agreeOnBounds d1 d2 t) := by
  unfold agreeOnBounds
  have :
      (∀ x ∈ List.range (t.x + t.width), ∀ y ∈ List.range (t.y + t.height),
        t.x ≤ x → t.y ≤ y → pixelAlpha d1 x y = pixelAlpha d2 x y) ↔
      (∀ x y, t.x ≤ x → x < t.x + t.width → t.y ≤ y → y < t.y + t.height →
        pixelAlpha d1 x y = pixelAlpha d2 x y) := by
    constructor
    · intro h x y hx1 hx2 hy1 hy2
      exact h x (List.mem_range.mpr hx2) y (List.mem_range.mpr hy2) hx1 hy1
    · intro h x hx y hy hx1 hy1
      exact h x y hx1 (List.mem_range.mp hx) hy1 (List.mem_range.mp hy)
  exact decidable_of_iff _ this

/-! ### The atlas engine (`src/src/live-atlas/lib/LiveAtlas.ts`)

Only the state-relevant behaviour is embedded: the region table
(`frames`), the spritesheet table (`spriteFrames`), the packer, the
repack flag, the set of frame names registered on the render texture
(`rt.texture`), and the render-texture size.  Pixel contents and the
Phaser game objects are not tracked. -/

/-- One entry of the region table `frames`. -/
structure FrameRect where
  x : Int
  y : Int
  width : Int
  height : Int
  trim : Option TrimFrame
deriving Repr, DecidableEq

/-- The `LiveAtlas` state. -/
structure AtlasState where
  frames : List (String × FrameRect)
  spriteFrames : List (String × List String)
  packer : ShelfPack
  requiresRepack : Bool
  textureFrames : List String
  rtWidth : Int
  rtHeight : Int
deriving Repr, DecidableEq

/-- A fresh `LiveAtlas`: 1×1 render texture, empty tables, and a packer
built by `new ShelfPack(1, 1, true)` (auto-resize on). -/
def AtlasState.make : AtlasState where
  frames := []
  spriteFrames := []
  packer := ShelfPack.make 1 1 true
  requiresRepack := false
  textureFrames := []
  rtWidth := 1
  rtHeight := 1

/-- `private framePadding = 8`. -/
def framePadding : Int := 8

/-- `LiveAtlas.hasFrame(frame)`. -/
def AtlasState.hasFrame (st : AtlasState) (frame : String) : Bool :=
  (lookupEntry st.frames frame).isSome

/-- `rt.texture.add(name, ...)`: Phaser's `Texture.add` is a no-op
(returning `null`) when a frame of that name already exists. -/
def AtlasState.addTextureFrame (st : AtlasState) (name : String) : AtlasState :=
  if st.textureFrames.contains name then st
  else { st with textureFrames := st.textureFrames ++ [name] }

/-- `LiveAtlas.maybeRegisterEmptyFrame(frame)`: when `rt.texture` has no
frame of this name, record a 1×1 region at the origin and add the texture
frame. -/
def AtlasState.maybeRegisterEmptyFrame (st : AtlasState) (frame : String) :
    AtlasState :=
  if st.textureFrames.contains frame then st
  else
    { st with
      frames := insertEntry st.frames frame ⟨0, 0, 1, 1, none⟩
      textureFrames := st.textureFrames ++ [frame] }

/-- The synchronous prefix of `LiveAtlas.addFrameByURL(textureKey,
textureUrl, force)` — everything before the first `await`: the guard
`!textureUrl || (!force && (!textureKey || this.frames[textureKey]))`
followed by `maybeRegisterEmptyFrame` (the empty string is the falsy
case). -/
def AtlasState.addFrameByURLSync (st : AtlasState)
    (textureKey textureUrl : String) (force : Bool) : AtlasState :=
  if textureUrl = "" ∨
      (¬ force ∧ (textureKey = "" ∨ (lookupEntry st.frames textureKey).isSome)) then
    st
  else st.maybeRegisterEmptyFrame textureKey

/-- The synchronous prefix of `addImage(key)` (`add.image` forwards to
`addFrameByURL` with `textureUrl = textureUrl ?? textureKey` and
`force = false`). -/
def AtlasState.addImageSync (st : AtlasState) (key : String) : AtlasState :=
  st.addFrameByURLSync key key false

/-- Total weight of a spritesheet table, the termination measure of the
expansion loop in `removeFrame`. -/
def tblWeight (tbl : List (String × List String)) : Nat :=
  (tbl.map fun p => 1 + p.2.length).sum

theorem tblWeight_erase (tbl : List (String × List String)) (f : String)
    (coll : List String) (h : lookupEntry tbl f = some coll) :
    tblWeight (eraseEntry tbl f) + (1 + coll.length) = tblWeight tbl := by
  induction tbl with
  | nil => simp [lookupEntry] at h
  | cons p rest ih =>
    by_cases hk : p.1 = f
    · have : p.2 = coll := by
        simpa [lookupEntry, hk] using h
      subst this
      simp [eraseEntry, hk, tblWeight]
      ring
    · have h' : lookupEntry rest f = some coll := by
        simpa [lookupEntry, hk] using h
      have := ih h'
      simp only [eraseEntry, hk, if_false, tblWeight, List.map_cons, List.sum_cons]
      simp only [tblWeight] at this
      omega

/-- The first loop of `LiveAtlas.removeFrame`: iterate over the key array
while appending the sub-frames of any spritesheet key encountered
(`Array.prototype.push.apply(frame, collection)` — `for..of` also visits
the appended elements) and deleting that spritesheet table entry. -/
def expandSpriteFrames (acc : List String) (pending : List String)
    (tbl : List (String × List String)) :
    List String × List (String × List String) :=
  match pending with
  | [] => (acc.reverse, tbl)
  | f :: rest =>
    match hl : lookupEntry tbl f with
    | some coll =>
      expandSpriteFrames (f :: acc) (rest ++ coll) (eraseEntry tbl f)
    | none => expandSpriteFrames (f :: acc) rest tbl
termination_by pending.length + tblWeight tbl
decreasing_by
  all_goals simp only [List.length_append, List.length_cons]
  all_goals first
  | exact (by have := tblWeight_erase tbl f coll hl; omega :
      rest.length + coll.length + tblWeight (eraseEntry tbl f) <
        rest.length + 1 + tblWeight tbl)
  | omega

/-- The second loop of `LiveAtlas.removeFrame`: for each key, delete its
region-table entry; when `immediately` is set, erase its pixels (not
tracked here) and `unref` its packer bin; a falsy key is skipped.  The
source `return`s — rather than `continue`s — both on a key without a
region entry and, after deleting the entry, when `immediately` is not
set; the returned flag records whether the loop ran to completion (only
then does `removeFrame` reach `setRepackFlag`). -/
def removeFrameLoop (st : AtlasState) (immediately : Bool) :
    List String → AtlasState × Bool
  | [] => (st, true)
  | f :: rest =>
    if f = "" then removeFrameLoop st immediately rest
    else
      match lookupEntry st.frames f with
      | none => (st, false)
      | some _ =>
        let st1 : AtlasState := { st with frames := eraseEntry st.frames f }
        if immediately = false then (st1, false)
        else
          let st2 : AtlasState :=
            match st1.packer.getBin f with
            | some bin => { st1 with packer := (st1.packer.unref bin).2.1 }
            | none => st1
          removeFrameLoop st2 immediately rest

/-- `LiveAtlas.removeFrame(frame, immediately)`: expand spritesheet keys,
process each key, and — when the second loop is not cut short by one of
its `return` statements — set the repack flag. -/
def AtlasState.removeFrame (st : AtlasState) (frameArg : List String)
    (immediately : Bool) : AtlasState :=
  let (expanded, spriteFrames') := expandSpriteFrames [] frameArg st.spriteFrames
  let st0 : AtlasState := { st with spriteFrames := spriteFrames' }
  let (st1, completed) := removeFrameLoop st0 immediately expanded
  if completed then { st1 with requiresRepack := true } else st1

/-- The `dimensions` record handed to `packNewFrame` /
`drawNewFrameToAtlas`. -/
structure PackDims where
  width : Int
  height : Int
  trim : Option TrimFrame
deriving Repr, DecidableEq

/-- `LiveAtlas.packNewFrame(frameKey, dimensions)`: request the trimmed
size plus `framePadding` from the packer, and on success record the rect
with `halfPadding = (framePadding / 2) | 0` subtracted from the packed
width and height. -/
def AtlasState.packNewFrame (fuel : Nat) (st : AtlasState) (frameKey : String)
    (dims : PackDims) : Option Bin × AtlasState :=
  let packed : Option Bin × ShelfPack :=
    match dims.trim with
    | some t =>
      packOne fuel st.packer (t.trimmedWidth + framePadding)
        (t.trimmedHeight + framePadding) frameKey
    | none =>
      packOne fuel st.packer (dims.width + framePadding)
        (dims.height + framePadding) frameKey
  let st1 : AtlasState := { st with packer := packed.2 }
  match packed.1 with
  | none => (none, st1)
  | some b =>
    let halfPadding : Int := framePadding / 2
    (some b,
      { st1 with
        frames := insertEntry st1.frames frameKey
          ⟨b.x, b.y, b.width - halfPadding, b.height - halfPadding, dims.trim⟩ })

/-! #### Serialization (`load.fromJSON` / `importExistingAtlas`) -/

/-- The packer fields recovered from `JSON.parse(packerData)` (the
serialization of the packer used by the atlas engine, whose public data
fields are `width`, `height`, `autoResize`, `shelves`, `freebins` and
`bins`; `shelves` are rebuilt as `Shelf` objects field by field). -/
structure PackerImport where
  width : Int
  height : Int
  autoResize : Bool
  shelves : List Shelf
  freebins : List Bin
  bins : List (String × Bin)
deriving Repr, DecidableEq

/-- Outcome of `JSON.parse` on the `packerData` property: the property may
be absent (`JSON.parse(undefined)` throws), present but unparsable
(throws), or parse to packer fields. -/
inductive PackerDataField : Type
  | missing
  | unparsable
  | ok (p : PackerImport)
deriving Repr, DecidableEq

/-- Outcome of `JSON.parse` on the serialized-atlas string: the string may
be unparsable, or parse to an object whose `frames` / `image` /
`packerData` properties may each be absent.  The decoded image is
represented by its dimensions. -/
inductive SerializedInput : Type
  | malformed
  | parsed (frames : Option (List (String × FrameRect)))
      (image : Option (Int × Int)) (packerData : PackerDataField)
deriving Repr, DecidableEq

/-- Rebuild the packer from imported fields: `new ShelfPack(1, 1, true)`,
shelves pushed one by one as reconstructed `Shelf` objects, every other
listed property overwritten from the parse result. -/
def importPacker (p : PackerImport) : ShelfPack :=
  { ShelfPack.make 1 1 true with
    width := p.width
    height := p.height
    autoResize := p.autoResize
    shelves := p.shelves
    freebins := p.freebins
    bins := p.bins }

/-- `LiveAtlas.importExistingAtlas(frames, imageUri, packerData)` up to
the state it mutates: replace the region table, register a texture frame
per region, then `JSON.parse(packerData)` — which throws when the
property is missing or unparsable, aborting the rest (`Bool` result:
"an exception escaped") — then replace the packer, resize the render
texture to the decoded image and clear the repack flag (the image load
itself is modelled as succeeding). -/
def importExistingAtlas (st : AtlasState)
    (frames : List (String × FrameRect)) (imageDims : Int × Int)
    (packerData : PackerDataField) : Bool × AtlasState :=
  let st1 : AtlasState := { st with frames := frames }
  let st2 : AtlasState :=
    frames.foldl (fun s p => s.addTextureFrame p.1) st1
  match packerData with
  | PackerDataField.missing => (true, st2)
  | PackerDataField.unparsable => (true, st2)
  | PackerDataField.ok p =>
    let st3 : AtlasState := { st2 with packer := importPacker p }
    (false,
      { st3 with
        rtWidth := imageDims.1
        rtHeight := imageDims.2
        requiresRepack := false })

/-- `LiveAtlas.load.fromJSON(json)`: `false` when the string is
unparsable or the parse result lacks `frames` or `image`; otherwise run
`importExistingAtlas`, converting an escaped exception into `false`. -/
def AtlasState.deserializeFromJSON (st : AtlasState) (input : SerializedInput) :
    Bool × AtlasState :=
  match input with
  | SerializedInput.malformed => (false, st)
  | SerializedInput.parsed framesField imageField packerData =>
    match framesField, imageField with
    | some frames, some dims =>
      let (thrown, st') := importExistingAtlas st frames dims packerData
      if thrown then (false, st') else (true, st')
    | some _, none => (false, st)
    | none, _ => (false, st)

/-! ### Basic lemmas about the dictionary helpers -/

theorem lookupEntry_mem {α : Type} {l : List (String × α)} {k : String}
    {v : α} (h : lookupEntry l k = some v) : (k, v) ∈ l := by
  induction l with
  | nil => simp [lookupEntry] at h
  | cons p rest ih =>
    obtain ⟨pk, pv⟩ := p
    by_cases hk : pk = k
    · subst hk
      simp [lookupEntry] at h
      subst h
      exact List.mem_cons_self _ _
    · simp only [lookupEntry, hk, if_false] at h
      exact List.mem_cons_of_mem _ (ih h)

theorem replaceEntry_length {α : Type} (l : List (String × α)) (k : String)
    (v : α) : (replaceEntry l k v).length = l.length := by
  induction l with
  | nil => rfl
  | cons p rest ih =>
    by_cases hk : p.1 = k <;> simp [replaceEntry, hk, ih]

theorem lookupEntry_append_of_none {α : Type} {l : List (String × α)}
    {k : String} (h : lookupEntry l k = none) (l' : List (String × α)) :
    lookupEntry (l ++ l') k = lookupEntry l' k := by
  induction l with
  | nil => rfl
  | cons p rest ih =>
    by_cases hk : p.1 = k
    · simp [lookupEntry, hk] at h
    · simp only [lookupEntry, hk, if_false] at h ⊢
      exact ih h

theorem lookupEntry_replaceEntry_self {α : Type} {l : List (String × α)}
    {k : String} (v : α) (h : (lookupEntry l k).isSome) :
    lookupEntry (replaceEntry l k v) k = some v := by
  induction l with
  | nil => simp [lookupEntry] at h
  | cons p rest ih =>
    by_cases hk : p.1 = k
    · simp [replaceEntry, lookupEntry, hk]
    · simp only [lookupEntry, hk, if_false] at h
      simp only [replaceEntry, hk, if_false, lookupEntry]
      exact ih h

theorem lookupEntry_insertEntry_self {α : Type} (l : List (String × α))
    (k : String) (v : α) : lookupEntry (insertEntry l k v) k = some v := by
  unfold insertEntry
  cases hl : lookupEntry l k with
  | some w =>
    simp only [hl, Option.isSome_some, if_true]
    exact lookupEntry_replaceEntry_self v (by simp [hl])
  | none =>
    simp only [hl, Option.isSome_none, Bool.false_eq_true, if_false]
    rw [lookupEntry_append_of_none hl]
    simp [lookupEntry]

/-! ### C10: `unref` on a bin whose refcount is already 0 -/

/-- C10: for every bin whose refcount is already 0, `unref` returns 0 and
leaves the entire packer state (free list, stats histogram, bin table)
and the bin unchanged, so no refcount ever becomes negative through this
call. -/
theorem unref_zero_refcount_noop (st : ShelfPack) (bin : Bin)
    (h : bin.refcount = 0) : st.unref bin = (0, st, bin) := by
  simp [ShelfPack.unref, h]

/-- Witness for `unref_zero_refcount_noop` at a concrete state and bin. -/
theorem unref_zero_refcount_noop_witness :
    (ShelfPack.make 4 4 true).unref (Bin.make "a" 0 0 2 2 2 2) =
      (0, ShelfPack.make 4 4 true, Bin.make "a" 0 0 2 2 2 2) :=
  unref_zero_refcount_noop (ShelfPack.make 4 4 true) (Bin.make "a" 0 0 2 2 2 2)
    (by decide)

/-! ### C7: `packOne` on an id that already has a live bin -/

/-- A packer state reached by packing one 3×3 bin under id `a`. -/
def c7State : ShelfPack := (packOne 2 (ShelfPack.make 10 10 true) 3 3 "a").2

/-- The bin stored under `a` in `c7State`. -/
def c7Bin : Bin := ⟨"a", 0, 0, 3, 3, 3, 3, 1⟩

/-- C7: when `id` already has a live bin, `packOne(w, h, id)` — for any
`w`, `h` and any fuel — returns that same bin with its rectangle (and
every other field except the refcount) unchanged and its refcount
incremented by one, updates only that dictionary entry, and leaves the
number of bins, the shelves, the free list, the stats and the surface
size unchanged. -/
theorem packOne_existing_id (n : Nat) (st : ShelfPack) (w h : Int)
    (id : String) (bin : Bin) (hbin : st.getBin id = some bin)
    (hlive : 0 < bin.refcount) :
    packOne (n + 1) st w h id =
      (some { bin with refcount := bin.refcount + 1 },
        { st with
          bins := replaceEntry st.bins bin.id
            { bin with refcount := bin.refcount + 1 } }) ∧
    (replaceEntry st.bins bin.id
        { bin with refcount := bin.refcount + 1 }).length = st.bins.length := by
  constructor
  · have hst : bin.refcount + 1 ≠ 1 := by omega
    simp only [packOne, packOneStep, hbin, ShelfPack.refBin, hst, if_false]
  · exact replaceEntry_length _ _ _

/-- Witness for `packOne_existing_id` at a concrete packer state. -/
theorem packOne_existing_id_witness :
    packOne 1 c7State 9 9 "a" =
      (some { c7Bin with refcount := c7Bin.refcount + 1 },
        { c7State with
          bins := replaceEntry c7State.bins c7Bin.id
            { c7Bin with refcount := c7Bin.refcount + 1 } }) ∧
    (replaceEntry c7State.bins c7Bin.id
        { c7Bin with refcount := c7Bin.refcount + 1 }).length =
      c7State.bins.length :=
  packOne_existing_id 0 c7State 9 9 "a" c7Bin (by decide) (by decide)

/-! ### C1: does `ShelfPack.pack` sort its items? -/

/-- Modelled from the spec: insertion step of sorting items "by
descending height (ties by descending width)". -/
def specInsertItem (a : PackItem) : List PackItem → List PackItem
  | [] => [a]
  | b :: rest =>
    if a.height > b.height ∨ (a.height = b.height ∧ a.width > b.width) then
      a :: b :: rest
    else b :: specInsertItem a rest

/-- Modelled from the spec: sort items by descending height, ties broken
by descending width. -/
def specSortItems : List PackItem → List PackItem
  | [] => []
  | a :: rest => specInsertItem a (specSortItems rest)

/-- Modelled from the spec: "`pack(items[])` sorts the items by
descending height (ties broken by descending width) before allocating
each one via `packOne`", then shrinks — i.e. the source `pack` applied
to the sorted items. -/
def ShelfPack.packSortedSpec (fuel : Nat) (st : ShelfPack)
    (items : List PackItem) : ShelfPack × List Bin :=
  ShelfPack.pack fuel st (specSortItems items)

/-- Counterexample to C1: on a 10×10 auto-resizing packer and the items
`[a: 1×1, b: 1×2]`, the source `pack` (which allocates in input order)
and the spec's sorted `pack` produce different allocations — the source
places `a` at `(0,0)` on a height-1 shelf and `b` at `(0,1)`, while
sorting by descending height would place `b` at `(0,0)` and `a` at
`(1,0)`. -/
theorem pack_does_not_sort_counterexample :
    (ShelfPack.pack 10 (ShelfPack.make 10 10 true)
        [⟨"a", 1, 1⟩, ⟨"b", 1, 2⟩]).2 ≠
      (ShelfPack.packSortedSpec 10 (ShelfPack.make 10 10 true)
        [⟨"a", 1, 1⟩, ⟨"b", 1, 2⟩]).2 := by
  decide

/-! ### C3: the trimmer reads pixels outside the given bounds -/

/-- A 2×2 image whose left column (the scan bounds below) has content
only at `(0,1)`; the pixel `(1,0)` outside the bounds is opaque. -/
def trimImgA : ImageData :=
  ⟨2, 2, [0, 0, 0, 0, 0, 0, 0, 255, 0, 0, 0, 255, 0, 0, 0, 0]⟩

/-- The same image with the out-of-bounds pixel `(1,0)` transparent. -/
def trimImgB : ImageData :=
  ⟨2, 2, [0, 0, 0, 0, 0, 0, 0, 0, 0, 0, 0, 255, 0, 0, 0, 0]⟩

/-- Scan bounds restricting the trim to the left 1×2 column. -/
def trimBoundsC3 : TrimBounds := ⟨0, 0, 1, 2⟩

/-- C3 fails on the code: `trimImgA` and `trimImgB` agree on every pixel
inside the bounds, yet `trimImageEdges` returns different frames for
them (`y = 0, trimmedHeight = 2` versus `y = 1, trimmedHeight = 1`),
because `checkRowIsTotallyTransparent` scans the full image row and the
top scan starts at row 0 of the image rather than at the top of the
bounds. -/
theorem trimmer_depends_on_outside_pixels :
    agreeOnBounds trimImgA trimImgB trimBoundsC3 ∧
      trimImageEdges trimImgA (some trimBoundsC3) =
        some ⟨0, 0, 1, 2, 1, 2⟩ ∧
      trimImageEdges trimImgB (some trimBoundsC3) =
        some ⟨0, 1, 1, 2, 1, 1⟩ := by
  refine ⟨by decide, by decide, by decide⟩

/-! ### C4: atomicity of `load.fromJSON` on invalid input -/

/-- C4, amended part: when the serialized string is unparsable, or the
parse result lacks the `frames` or the `image` property, `fromJSON`
returns `false` and the atlas state — region table, spritesheet table,
packer, everything — is untouched. -/
theorem deserialize_invalid_input_untouched (st : AtlasState)
    (input : SerializedInput)
    (h : input = SerializedInput.malformed ∨
      ∃ f i p, input = SerializedInput.parsed f i p ∧ (f = none ∨ i = none)) :
    st.deserializeFromJSON input = (false, st) := by
  rcases h with h | ⟨f, i, p, rfl, hfi⟩
  · subst h
    rfl
  · rcases hfi with rfl | rfl
    · rfl
    · cases f <;> rfl

/-- Witness for `deserialize_invalid_input_untouched` on a fresh atlas
and an input missing the `image` property. -/
theorem deserialize_invalid_input_untouched_witness :
    AtlasState.make.deserializeFromJSON
        (SerializedInput.parsed (some []) none PackerDataField.missing) =
      (false, AtlasState.make) :=
  deserialize_invalid_input_untouched AtlasState.make
    (SerializedInput.parsed (some []) none PackerDataField.missing)
    (Or.inr ⟨some [], none, PackerDataField.missing, rfl, Or.inr rfl⟩)

/-- An atlas holding one region under key `old`. -/
def c4Before : AtlasState :=
  { AtlasState.make with frames := [("old", ⟨0, 0, 3, 3, none⟩)] }

/-- A deserialize input that parses and has `frames` and `image` but is
missing the required `packerData` property. -/
def c4Input : SerializedInput :=
  SerializedInput.parsed (some [("new", ⟨0, 0, 2, 2, none⟩)]) (some (4, 4))
    PackerDataField.missing

/-- Counterexample to C4 as stated: on an input missing the required
`packerData` field, the `deserialize` call fails (returns `false`) but
the in-memory atlas is NOT left untouched — the region table has already
been replaced (`importExistingAtlas` assigns `this.frames` before
`JSON.parse(packerData)` throws). -/
theorem deserialize_not_atomic_counterexample :
    (c4Before.deserializeFromJSON c4Input).1 = false ∧
      (c4Before.deserializeFromJSON c4Input).2 ≠ c4Before ∧
      lookupEntry (c4Before.deserializeFromJSON c4Input).2.frames "old" =
        none := by
  refine ⟨by decide, by decide, by decide⟩

/-! ### C5: `removeFrame` with `immediately = false` -/

theorem expandSpriteFrames_no_tbl (acc pending : List String) :
    expandSpriteFrames acc pending [] = (acc.reverse ++ pending, []) := by
  induction pending generalizing acc with
  | nil => simp [expandSpriteFrames]
  | cons f rest ih => simp [expandSpriteFrames, lookupEntry, ih]

/-- An atlas holding plain regions under keys `a` and `b`. -/
def c5Before : AtlasState :=
  { AtlasState.make with
    frames := [("a", ⟨0, 0, 1, 1, none⟩), ("b", ⟨2, 0, 1, 1, none⟩)] }

/-- C5 fails on the code: removing `["a", "b"]` with `immediate = false`
deletes only the entry for `a` — the loop body `return`s instead of
continuing — leaving `b` in the region table and the dirty/repack flag
unset (`setRepackFlag` is never reached). -/
theorem removeFrame_not_immediate_returns_early :
    lookupEntry (c5Before.removeFrame ["a", "b"] false).frames "a" = none ∧
      lookupEntry (c5Before.removeFrame ["a", "b"] false).frames "b" =
        some ⟨2, 0, 1, 1, none⟩ ∧
      (c5Before.removeFrame ["a", "b"] false).requiresRepack = false := by
  have h : c5Before.removeFrame ["a", "b"] false =
      { c5Before with frames := [("b", ⟨2, 0, 1, 1, none⟩)] } := by
    unfold AtlasState.removeFrame
    rw [show c5Before.spriteFrames = [] from rfl, expandSpriteFrames_no_tbl]
    decide
  rw [h]
  refine ⟨by decide, by decide, by decide⟩

/-- For contrast, the `immediate = true` path on the same input does
behave as the claim describes: both entries deleted and the repack flag
set. -/
theorem removeFrame_immediate_removes_all :
    lookupEntry (c5Before.removeFrame ["a", "b"] true).frames "a" = none ∧
      lookupEntry (c5Before.removeFrame ["a", "b"] true).frames "b" = none ∧
      (c5Before.removeFrame ["a", "b"] true).requiresRepack = true := by
  have h : c5Before.removeFrame ["a", "b"] true =
      { c5Before with frames := [], requiresRepack := true } := by
    unfold AtlasState.removeFrame
    rw [show c5Before.spriteFrames = [] from rfl, expandSpriteFrames_no_tbl]
    decide
  rw [h]
  refine ⟨by decide, by decide, by decide⟩

/-! ### C8: the synchronous part of `addImage` -/

/-- The atlas after `addImage("k")` (synchronous part), then
`removeRegion("k", immediate = true)`: the region is gone but the
render texture still has a frame named `k` (`removeFrame` never calls
`rt.texture.remove`). -/
def c8Mid : AtlasState :=
  (AtlasState.make.addImageSync "k").removeFrame ["k"] true

/-- Counterexample to C8 as stated: `c8Mid` has no region for `k`, yet
the synchronous part of a new `addImage("k")` registers nothing —
`maybeRegisterEmptyFrame` sees the leftover texture frame and returns —
so `hasRegion("k")` stays `false`. -/
theorem addImage_placeholder_counterexample :
    c8Mid.hasFrame "k" = false ∧
      (c8Mid.addImageSync "k").hasFrame "k" = false := by
  have h : c8Mid =
      { AtlasState.make with textureFrames := ["k"], requiresRepack := true } := by
    unfold c8Mid AtlasState.removeFrame
    rw [show (AtlasState.make.addImageSync "k").spriteFrames = [] from rfl,
      expandSpriteFrames_no_tbl]
    decide
  rw [h]
  refine ⟨by decide, by decide⟩

/-- C8, amended: for a key with no region whose name is also absent from
the render texture's frames (in particular any key never added before),
the synchronous part of `addImage` registers a 1×1 region at the origin,
so `hasRegion` is `true` immediately. -/
theorem addImage_placeholder_registered (st : AtlasState) (k : String)
    (hk : k ≠ "") (hreg : lookupEntry st.frames k = none)
    (htex : st.textureFrames.contains k = false) :
    lookupEntry (st.addImageSync k).frames k = some ⟨0, 0, 1, 1, none⟩ ∧
      (st.addImageSync k).hasFrame k = true := by
  have hmain :
      lookupEntry (st.addImageSync k).frames k = some ⟨0, 0, 1, 1, none⟩ := by
    unfold AtlasState.addImageSync AtlasState.addFrameByURLSync
    simp only [hk, hreg, Option.isSome_none, Bool.false_eq_true, and_false,
      or_self, if_false]
    unfold AtlasState.maybeRegisterEmptyFrame
    simp only [htex, Bool.false_eq_true, if_false]
    exact lookupEntry_insertEntry_self _ _ _
  refine ⟨hmain, ?_⟩
  unfold AtlasState.hasFrame
  rw [hmain]
  rfl

/-- Witness for `addImage_placeholder_registered` on a fresh atlas. -/
theorem addImage_placeholder_registered_witness :
    lookupEntry (AtlasState.make.addImageSync "k").frames "k" =
        some ⟨0, 0, 1, 1, none⟩ ∧
      (AtlasState.make.addImageSync "k").hasFrame "k" = true :=
  addImage_placeholder_registered AtlasState.make "k" (by decide) (by decide)
    (by decide)

/-! ### C2: what `packNewFrame` records in the region table -/

theorem allocFreebin_some {st : ShelfPack} {i : Nat} {w h : Int} {id : String}
    {b : Bin} {st' : ShelfPack} (hr : st.allocFreebin i w h id = (some b, st')) :
    b.width = w ∧ b.height = h ∧ b.id = id := by
  unfold ShelfPack.allocFreebin at hr
  cases hget : st.freebins.get? i with
  | none => rw [hget] at hr; simp at hr
  | some bin =>
    rw [hget] at hr
    simp only [ShelfPack.refBin, Prod.mk.injEq, Option.some.injEq] at hr
    obtain ⟨hb, _⟩ := hr
    subst hb
    exact ⟨rfl, rfl, rfl⟩

theorem allocShelf_some {st : ShelfPack} {i : Nat} {w h : Int} {id : String}
    {b : Bin} {st' : ShelfPack} (hr : st.allocShelf i w h id = (some b, st')) :
    b.width = w ∧ b.height = h ∧ b.id = id := by
  unfold ShelfPack.allocShelf at hr
  cases hget : st.shelves.get? i with
  | none => rw [hget] at hr; simp at hr
  | some s =>
    rw [hget] at hr
    dsimp only at hr
    cases halloc : s.alloc w h id with
    | none => rw [halloc] at hr; simp at hr
    | some p =>
      rw [halloc] at hr
      dsimp only at hr
      have hbin : p.1.width = w ∧ p.1.height = h ∧ p.1.id = id := by
        unfold Shelf.alloc at halloc
        by_cases hc : w > s.free ∨ h > s.height
        · simp [hc] at halloc
        · simp only [hc, if_false, Option.some.injEq] at halloc
          rw [← halloc]
          exact ⟨rfl, rfl, rfl⟩
      obtain ⟨p1, p2⟩ := p
      simp only [ShelfPack.refBin, Prod.mk.injEq, Option.some.injEq] at hr
      obtain ⟨hb, _⟩ := hr
      subst hb
      exact ⟨hbin.1, hbin.2.1, hbin.2.2⟩

/-- `resize` (and hence the auto-resize growth) does not touch the bin
dictionary. -/
theorem getBin_grow (st : ShelfPack) (w h : Int) (id : String) :
    (st.grow w h).getBin id = st.getBin id := rfl

/-- A successful `packOne` for an id without an existing bin returns a bin
whose width and height are exactly the requested ones and whose id is the
requested id (every allocation path — free bin, shelf, new shelf — sets
these fields, and growth retries preserve the missing-id premise). -/
theorem packOne_fresh_dims :
    ∀ (n : Nat) (st : ShelfPack) {w h : Int} {id : String} {b : Bin}
      {st2 : ShelfPack}, packOne n st w h id = (some b, st2) →
      st.getBin id = none → b.width = w ∧ b.height = h ∧ b.id = id := by
  intro n
  induction n with
  | zero =>
    intro st w h id b st2 hres _
    simp [packOne] at hres
  | succ n ih =>
    intro st w h id b st2 hres hfresh
    rw [packOne] at hres
    unfold packOneStep at hres
    rw [hfresh] at hres
    dsimp only at hres
    cases hfb : freebinScan st.freebins 0 w h none with
    | inl i =>
      rw [hfb] at hres
      exact allocFreebin_some hres
    | inr bestF =>
      rw [hfb] at hres
      dsimp only at hres
      cases hss : shelfScan st.shelves 0 w h 0
          (bestF.map fun p => (BestRef.fb p.1, p.2)) with
      | inl i =>
        rw [hss] at hres
        exact allocShelf_some hres
      | inr br =>
        rw [hss] at hres
        dsimp only at hres
        obtain ⟨best, y⟩ := br
        cases best with
        | some c =>
          obtain ⟨r, waste⟩ := c
          cases r with
          | fb i => exact allocFreebin_some hres
          | sh i => exact allocShelf_some hres
        | none =>
          by_cases hfit : h ≤ st.height - y ∧ w ≤ st.width
          · rw [if_pos hfit] at hres
            exact allocShelf_some hres
          · rw [if_neg hfit] at hres
            by_cases har : st.autoResize = true
            · rw [if_pos har] at hres
              exact ih _ hres (by rw [getBin_grow]; exact hfresh)
            · rw [if_neg har] at hres
              simp at hres

/-- Counterexample to C2: on a fresh atlas, packing key `k` with trimmed
content 2×2 records width 6 (= 2 + framePadding − halfPadding) in the
region table, not the trimmed width 2. -/
theorem packNewFrame_width_counterexample :
    (lookupEntry
        (AtlasState.make.packNewFrame 5 "k" ⟨2, 2, some ⟨0, 0, 5, 5, 2, 2⟩⟩).2.frames
        "k").map FrameRect.width = some 6 ∧ (6 : Int) ≠ 2 := by
  refine ⟨by decide, by decide⟩

/-- C2, amended: for a non-empty trimmed image successfully packed under
a key the packer has no bin for, the region table records content
dimensions that exceed the trimmed ones by
`framePadding - (framePadding / 2)` (4 pixels with the default padding):
`packNewFrame` requests `trimmed + framePadding` and subtracts only
`halfPadding` when recording. -/
theorem packNewFrame_records_half_padding (fuel : Nat) (st : AtlasState)
    (key : String) (dims : PackDims) (t : TrimFrame) (b : Bin)
    (st' : AtlasState) (ht : dims.trim = some t)
    (hfresh : st.packer.getBin key = none)
    (hres : st.packNewFrame fuel key dims = (some b, st')) :
    lookupEntry st'.frames key =
      some ⟨b.x, b.y, t.trimmedWidth + (framePadding - framePadding / 2),
        t.trimmedHeight + (framePadding - framePadding / 2), some t⟩ := by
  unfold AtlasState.packNewFrame at hres
  rw [ht] at hres
  dsimp only at hres
  cases hp : packOne fuel st.packer (t.trimmedWidth + framePadding)
      (t.trimmedHeight + framePadding) key with
  | mk ob pk =>
    rw [hp] at hres
    dsimp only at hres
    cases ob with
    | none => simp at hres
    | some bb =>
      dsimp only at hres
      simp only [Prod.mk.injEq, Option.some.injEq] at hres
      obtain ⟨hb, hst⟩ := hres
      obtain ⟨hw, hh, _⟩ := packOne_fresh_dims fuel st.packer hp hfresh
      subst hb
      rw [← hst]
      dsimp only
      rw [lookupEntry_insertEntry_self]
      simp only [Option.some.injEq, FrameRect.mk.injEq]
      refine ⟨trivial, trivial, ?_, ?_, trivial⟩
      · rw [hw]; simp only [framePadding]; omega
      · rw [hh]; simp only [framePadding]; omega

/-- The bin allocated in the witness scenario below. -/
def c2Bin : Bin := ⟨"k", 0, 0, 10, 10, 10, 10, 1⟩

/-- The atlas state of the witness scenario: a fresh atlas after packing
key `k` with trimmed content 2×2. -/
def c2After : AtlasState :=
  { AtlasState.make with
    packer :=
      { autoResize := true
        width := 13
        height := 13
        shelves := [⟨0, 13, 10, 10, 3⟩]
        freebins := []
        stats := [(10, 1)]
        bins := [("k", c2Bin)] }
    frames := [("k", ⟨0, 0, 6, 6, some ⟨0, 0, 5, 5, 2, 2⟩⟩)] }

/-- Witness for `packNewFrame_records_half_padding` at the concrete
scenario of the counterexample. -/
theorem packNewFrame_records_half_padding_witness :
    lookupEntry c2After.frames "k" =
      some ⟨c2Bin.x, c2Bin.y,
        (2 : Int) + (framePadding - framePadding / 2),
        (2 : Int) + (framePadding - framePadding / 2),
        some ⟨0, 0, 5, 5, 2, 2⟩⟩ :=
  packNewFrame_records_half_padding 5 AtlasState.make "k"
    ⟨2, 2, some ⟨0, 0, 5, 5, 2, 2⟩⟩ ⟨0, 0, 5, 5, 2, 2⟩ c2Bin c2After rfl
    (by decide) (by decide)

/-! ### C1 (amended): `pack` allocates in input order, then shrinks -/

/-- Every stored bin's `id` field agrees with its dictionary key (true in
every reachable packer state; `packOne` maintains it). -/
def KeysMatch (l : List (String × Bin)) : Prop :=
  ∀ p ∈ l, (p : String × Bin).2.id = p.1

theorem KeysMatch_replaceEntry {l : List (String × Bin)} {k : String}
    {v : Bin} (h : KeysMatch l) (hv : v.id = k) :
    KeysMatch (replaceEntry l k v) := by
  induction l with
  | nil => intro p hp; simp [replaceEntry] at hp
  | cons q rest ih =>
    intro p hp
    by_cases hk : q.1 = k
    · simp only [replaceEntry, hk, if_true] at hp
      rcases List.mem_cons.mp hp with rfl | hmem
      · simpa [hk] using hv
      · exact h p (List.mem_cons_of_mem _ hmem)
    · simp only [replaceEntry, hk, if_false] at hp
      rcases List.mem_cons.mp hp with rfl | hmem
      · exact h q (List.mem_cons_self _ _)
      · exact ih (fun r hr => h r (List.mem_cons_of_mem _ hr)) p hmem

theorem KeysMatch_insertEntry {l : List (String × Bin)} {k : String}
    {v : Bin} (h : KeysMatch l) (hv : v.id = k) :
    KeysMatch (insertEntry l k v) := by
  unfold insertEntry
  by_cases hs : (lookupEntry l k).isSome
  · simp only [hs, if_true]
    exact KeysMatch_replaceEntry h hv
  · simp only [hs, if_false]
    intro p hp
    rcases List.mem_append.mp hp with hmem | hmem
    · exact h p hmem
    · rcases List.mem_singleton.mp hmem with rfl
      exact hv

theorem refBin_KeysMatch {st : ShelfPack} {bin : Bin}
    (h : KeysMatch st.bins) : KeysMatch ((st.refBin bin).2).bins := by
  unfold ShelfPack.refBin
  exact KeysMatch_replaceEntry h rfl

theorem allocFreebin_KeysMatch {st : ShelfPack} {i : Nat} {w h : Int}
    {id : String} (hkm : KeysMatch st.bins) :
    KeysMatch ((st.allocFreebin i w h id).2).bins := by
  unfold ShelfPack.allocFreebin
  cases hget : st.freebins.get? i with
  | none => exact hkm
  | some bin =>
    dsimp only [ShelfPack.refBin]
    exact KeysMatch_replaceEntry (KeysMatch_insertEntry hkm rfl) rfl

theorem allocShelf_KeysMatch {st : ShelfPack} {i : Nat} {w h : Int}
    {id : String} (hkm : KeysMatch st.bins) :
    KeysMatch ((st.allocShelf i w h id).2).bins := by
  unfold ShelfPack.allocShelf
  cases hget : st.shelves.get? i with
  | none => exact hkm
  | some s =>
    dsimp only
    cases halloc : s.alloc w h id with
    | none => exact hkm
    | some p =>
      have hid : p.1.id = id := by
        unfold Shelf.alloc at halloc
        by_cases hc : w > s.free ∨ h > s.height
        · simp [hc] at halloc
        · simp only [hc, if_false, Option.some.injEq] at halloc
          rw [← halloc]
          rfl
      dsimp only [ShelfPack.refBin]
      exact KeysMatch_replaceEntry
        (KeysMatch_insertEntry hkm hid) rfl

/-- `packOne` keeps the key/id agreement of the bin dictionary, and every
bin it returns carries the requested id. -/
theorem packOne_KeysMatch_and_id :
    ∀ (n : Nat) (st : ShelfPack) {w h : Int} {id : String} {ob : Option Bin}
      {st2 : ShelfPack}, packOne n st w h id = (ob, st2) →
      KeysMatch st.bins →
      KeysMatch st2.bins ∧ ∀ b, ob = some b → b.id = id := by
  intro n
  induction n with
  | zero =>
    intro st w h id ob st2 hres hkm
    simp only [packOne, Prod.mk.injEq] at hres
    obtain ⟨rfl, rfl⟩ := hres
    exact ⟨hkm, by intro b hb; cases hb⟩
  | succ n ih =>
    intro st w h id ob st2 hres hkm
    rw [packOne] at hres
    unfold packOneStep at hres
    cases hbin : st.getBin id with
    | some bin =>
      rw [hbin] at hres
      dsimp only [ShelfPack.refBin] at hres
      simp only [Prod.mk.injEq] at hres
      obtain ⟨rfl, rfl⟩ := hres
      refine ⟨KeysMatch_replaceEntry hkm rfl, ?_⟩
      intro b hb
      cases hb
      exact hkm (id, bin) (lookupEntry_mem hbin)
    | none =>
      rw [hbin] at hres
      dsimp only at hres
      have hfree : ∀ (i : Nat),
          st.allocFreebin i w h id = (ob, st2) →
          KeysMatch st2.bins ∧ ∀ b, ob = some b → b.id = id := by
        intro i hr
        have h2 : KeysMatch st2.bins := by
          have hst : st2 = (st.allocFreebin i w h id).2 := by rw [hr]
          rw [hst]
          exact allocFreebin_KeysMatch hkm
        refine ⟨h2, ?_⟩
        intro b hb
        subst hb
        exact (allocFreebin_some (by rw [hr])).2.2
      have hshelf : ∀ (st0 : ShelfPack) (i : Nat), KeysMatch st0.bins →
          st0.allocShelf i w h id = (ob, st2) →
          KeysMatch st2.bins ∧ ∀ b, ob = some b → b.id = id := by
        intro st0 i hkm0 hr
        have h2 : KeysMatch st2.bins := by
          have hst : st2 = (st0.allocShelf i w h id).2 := by rw [hr]
          rw [hst]
          exact allocShelf_KeysMatch hkm0
        refine ⟨h2, ?_⟩
        intro b hb
        subst hb
        exact (allocShelf_some (by rw [hr])).2.2
      cases hfb : freebinScan st.freebins 0 w h none with
      | inl i =>
        rw [hfb] at hres
        exact hfree i hres
      | inr bestF =>
        rw [hfb] at hres
        dsimp only at hres
        cases hss : shelfScan st.shelves 0 w h 0
            (bestF.map fun p => (BestRef.fb p.1, p.2)) with
        | inl i =>
          rw [hss] at hres
          exact hshelf st i hkm hres
        | inr br =>
          rw [hss] at hres
          dsimp only at hres
          obtain ⟨best, y⟩ := br
          cases best with
          | some c =>
            obtain ⟨r, waste⟩ := c
            cases r with
            | fb i => dsimp only at hres; exact hfree i hres
            | sh i => dsimp only at hres; exact hshelf st i hkm hres
          | none =>
            dsimp only at hres
            by_cases hfit : h ≤ st.height - y ∧ w ≤ st.width
            · rw [if_pos hfit] at hres
              dsimp only at hres
              exact hshelf
                { st with shelves := st.shelves ++ [Shelf.make y st.width h] }
                ((st.shelves ++ [Shelf.make y st.width h]).length - 1) hkm hres
            · rw [if_neg hfit] at hres
              by_cases har : st.autoResize = true
              · rw [if_pos har] at hres
                exact ih _ hres hkm
              · rw [if_neg har] at hres
                simp only [Prod.mk.injEq] at hres
                obtain ⟨rfl, rfl⟩ := hres
                exact ⟨hkm, by intro b hb; cases hb⟩

/-- The results of the `pack` loop preserve the input order: their ids
form a sublist of the input ids. -/
theorem packLoop_ids (fuel : Nat) :
    ∀ (st : ShelfPack) (items : List PackItem), KeysMatch st.bins →
      ((packLoop fuel st items).2.map Bin.id).Sublist
        (items.map PackItem.id) := by
  intro st items
  induction items generalizing st with
  | nil => intro _; simp [packLoop]
  | cons item rest ih =>
    intro hkm
    rw [packLoop]
    by_cases hwh : item.width ≠ 0 ∧ item.height ≠ 0
    · rw [if_pos hwh]
      cases hp : packOne fuel st item.width item.height item.id with
      | mk ob st' =>
        have hkm' := (packOne_KeysMatch_and_id fuel st hp hkm).1
        have hid := (packOne_KeysMatch_and_id fuel st hp hkm).2
        cases ob with
        | some b =>
          dsimp only
          simp only [List.map_cons]
          rw [show b.id = item.id from hid b rfl]
          exact List.Sublist.cons₂ _ (ih st' hkm')
        | none =>
          dsimp only
          exact List.Sublist.cons _ (ih st' hkm')
    · rw [if_neg hwh]
      exact List.Sublist.cons _ (ih st hkm)

/-- The used width of a shelf (`width - free`) is invariant under
`Shelf.resize`. -/
theorem usedWidth_resize (s : Shelf) (w : Int) :
    (s.resize w).width - (s.resize w).free = s.width - s.free := by
  simp only [Shelf.resize]
  ring

/-- Maximal used width over the shelves, the `w2` of `shrink`. -/
def maxUsedWidth (l : List Shelf) : Int :=
  l.foldl (fun acc s => max (s.width - s.free) acc) 0

/-- Total shelf height, the `h2` of `shrink`. -/
def sumHeights (l : List Shelf) : Int :=
  l.foldl (fun acc s => acc + s.height) 0

theorem maxUsedWidth_map_resize (l : List Shelf) (w : Int) :
    maxUsedWidth (l.map fun s => s.resize w) = maxUsedWidth l := by
  unfold maxUsedWidth
  generalize (0 : Int) = acc
  induction l generalizing acc with
  | nil => rfl
  | cons s rest ih =>
    simp only [List.map_cons, List.foldl_cons, usedWidth_resize]
    exact ih _

theorem sumHeights_map_resize (l : List Shelf) (w : Int) :
    sumHeights (l.map fun s => s.resize w) = sumHeights l := by
  unfold sumHeights
  generalize (0 : Int) = acc
  induction l generalizing acc with
  | nil => rfl
  | cons s rest ih =>
    simp only [List.map_cons, List.foldl_cons, Shelf.resize]
    exact ih _

/-- After `shrink`, whenever shelves exist, the surface is exactly the
bounding box of the used shelf space: the maximal used shelf width by the
total shelf height. -/
theorem shrink_fits_shelves (st : ShelfPack) :
    (st.shrink).shelves ≠ [] →
      (st.shrink).width = maxUsedWidth (st.shrink).shelves ∧
      (st.shrink).height = sumHeights (st.shrink).shelves := by
  intro hne
  unfold ShelfPack.shrink at hne ⊢
  by_cases hsh : st.shelves = []
  · rw [if_pos hsh] at hne
    exact absurd hsh hne
  · rw [if_neg hsh] at hne ⊢
    unfold ShelfPack.resize
    constructor
    · show _ = maxUsedWidth (st.shelves.map _)
      rw [maxUsedWidth_map_resize]
      rfl
    · show _ = sumHeights (st.shelves.map _)
      rw [sumHeights_map_resize]
      rfl

/-- C1, amended: `pack(items[])` does not sort — the successful
allocations come back in the input order (their ids are a sublist of the
input ids; compare `pack_does_not_sort_counterexample`) — and afterwards
the surface is shrunk to the bounding box of the used shelf space
(maximal used shelf width × total shelf height) whenever any shelf
exists. -/
theorem pack_in_input_order_then_shrinks (fuel : Nat) (st : ShelfPack)
    (items : List PackItem) (hkm : KeysMatch st.bins) :
    (((ShelfPack.pack fuel st items).2.map Bin.id).Sublist
        (items.map PackItem.id)) ∧
      ((ShelfPack.pack fuel st items).1.shelves ≠ [] →
        (ShelfPack.pack fuel st items).1.width =
            maxUsedWidth (ShelfPack.pack fuel st items).1.shelves ∧
          (ShelfPack.pack fuel st items).1.height =
            sumHeights (ShelfPack.pack fuel st items).1.shelves) := by
  unfold ShelfPack.pack
  constructor
  · exact packLoop_ids fuel st items hkm
  · exact shrink_fits_shelves _

/-- Witness for `pack_in_input_order_then_shrinks` on a fresh packer and
two concrete items. -/
theorem pack_in_input_order_then_shrinks_witness :
    (((ShelfPack.pack 10 (ShelfPack.make 10 10 true)
          [⟨"a", 1, 1⟩, ⟨"b", 1, 2⟩]).2.map Bin.id).Sublist
        ([⟨"a", 1, 1⟩, ⟨"b", 1, 2⟩].map PackItem.id)) ∧
      ((ShelfPack.pack 10 (ShelfPack.make 10 10 true)
            [⟨"a", 1, 1⟩, ⟨"b", 1, 2⟩]).1.shelves ≠ [] →
        (ShelfPack.pack 10 (ShelfPack.make 10 10 true)
              [⟨"a", 1, 1⟩, ⟨"b", 1, 2⟩]).1.width =
            maxUsedWidth (ShelfPack.pack 10 (ShelfPack.make 10 10 true)
              [⟨"a", 1, 1⟩, ⟨"b", 1, 2⟩]).1.shelves ∧
          (ShelfPack.pack 10 (ShelfPack.make 10 10 true)
                [⟨"a", 1, 1⟩, ⟨"b", 1, 2⟩]).1.height =
            sumHeights (ShelfPack.pack 10 (ShelfPack.make 10 10 true)
              [⟨"a", 1, 1⟩, ⟨"b", 1, 2⟩]).1.shelves) :=
  pack_in_input_order_then_shrinks 10 (ShelfPack.make 10 10 true)
    [⟨"a", 1, 1⟩, ⟨"b", 1, 2⟩] (by intro p hp; simp [ShelfPack.make] at hp)

/-! ### C6: the no-overlap invariant of the packer

For states reachable by `packOne` calls alone (the claim's scope) the
free list stays empty, the shelves tile the surface top to bottom, and
every stored bin sits inside the used part of its shelf. -/

/-- Two bins' rectangles overlap (share an interior point). -/
def binsOverlap (a b : Bin) : Prop :=
  a.x < b.x + b.width ∧ b.x < a.x + a.width ∧
    a.y < b.y + b.height ∧ b.y < a.y + a.height

instance (a b : Bin) : Decidable (binsOverlap a b) := by
  unfold binsOverlap
  infer_instance

/-- Two bins cover the same rectangle (refcounts and ids may differ). -/
def rectEq (a b : Bin) : Prop :=
  a.x = b.x ∧ a.y = b.y ∧ a.width = b.width ∧ a.height = b.height

theorem rectEq_refBin (bin : Bin) :
    rectEq { bin with refcount := bin.refcount + 1 } bin :=
  ⟨rfl, rfl, rfl, rfl⟩

theorem binsOverlap_rectEq_left {a a' b : Bin} (h : rectEq a' a) :
    binsOverlap a' b ↔ binsOverlap a b := by
  obtain ⟨h1, h2, h3, h4⟩ := h
  unfold binsOverlap
  rw [h1, h2, h3, h4]

theorem binsOverlap_rectEq_right {a b b' : Bin} (h : rectEq b' b) :
    binsOverlap a b' ↔ binsOverlap a b := by
  obtain ⟨h1, h2, h3, h4⟩ := h
  unfold binsOverlap
  rw [h1, h2, h3, h4]

/-- Well-formed shelf list: starting at height `y`, each shelf starts
where the previous one ends, has nonnegative height, a free span between
`0` and its width, width equal to the surface width `wid`, and a cursor
`x = width - free`. -/
def ShelvesWF : List Shelf → Int → Int → Prop
  | [], _, _ => True
  | s :: rest, y, wid =>
    s.y = y ∧ 0 ≤ s.height ∧ 0 ≤ s.free ∧ s.free ≤ s.width ∧
      s.width = wid ∧ s.x = s.width - s.free ∧
      ShelvesWF rest (y + s.height) wid

/-- A bin lies inside the used part of a shelf. -/
def BinOnShelf (b : Bin) (s : Shelf) : Prop :=
  b.y = s.y ∧ 0 ≤ b.height ∧ b.height ≤ s.height ∧ 0 ≤ b.x ∧
    0 ≤ b.width ∧ b.x + b.width ≤ s.x

/-- A bin lies on one of the shelves. -/
def BinPlaced (shelves : List Shelf) (b : Bin) : Prop :=
  ∃ j s, shelves.get? j = some s ∧ BinOnShelf b s

/-- The invariant maintained by `packOne` (with only `packOne` calls, no
`unref`): empty free list, nonnegative surface width, well-formed
shelves, every stored bin placed on a shelf, and all stored bins pairwise
non-overlapping. -/
structure PackInv (st : ShelfPack) : Prop where
  freebins_nil : st.freebins = []
  width_nonneg : 0 ≤ st.width
  shelves_wf : ShelvesWF st.shelves 0 st.width
  keys_match : KeysMatch st.bins
  bins_placed : ∀ p ∈ st.bins, BinPlaced st.shelves (p : String × Bin).2
  bins_disjoint : st.bins.Pairwise fun p q => ¬ binsOverlap p.2 q.2

theorem PackInv_make (w h : Int) (ar : Bool) (hw : 0 ≤ w) :
    PackInv (ShelfPack.make w h ar) :=
  ⟨rfl, hw, True.intro, (by intro p hp; cases hp), (by intro p hp; cases hp),
    List.Pairwise.nil⟩

theorem jsCeil125_ge (x : Int) (hx : 0 ≤ x) : x ≤ jsCeil125 x := by
  unfold jsCeil125
  rw [Int.fdiv_eq_ediv _ (by norm_num)]
  omega

theorem jsCeil125_ge_add_one (x : Int) (hx : 1 ≤ x) : x + 1 ≤ jsCeil125 x := by
  unfold jsCeil125
  rw [Int.fdiv_eq_ediv _ (by norm_num)]
  omega

/-- Every shelf of a well-formed list starts at or below the list's
starting height. -/
theorem ShelvesWF_get_y_ge (l : List Shelf) :
    ∀ (y wid : Int), ShelvesWF l y wid →
      ∀ t s', l.get? t = some s' → y ≤ s'.y := by
  induction l with
  | nil => intro y wid _ t s' ht; cases ht
  | cons s rest ih =>
    intro y wid hwf t s' ht
    obtain ⟨hy, hh, _, _, _, _, hrest⟩ := hwf
    cases t with
    | zero =>
      simp only [List.get?_cons_zero, Option.some.injEq] at ht
      subst ht
      omega
    | succ t =>
      simp only [List.get?_cons_succ] at ht
      have := ih (y + s.height) wid hrest t s' ht
      omega

/-- Cumulative-layout consequence: a lower-indexed shelf ends at or above
where a higher-indexed shelf starts. -/
theorem ShelvesWF_strips (l : List Shelf) :
    ∀ (y wid : Int), ShelvesWF l y wid →
      ∀ i j si sj, i < j → l.get? i = some si → l.get? j = some sj →
        si.y + si.height ≤ sj.y := by
  induction l with
  | nil => intro y wid _ i j si sj _ hi _; cases hi
  | cons s rest ih =>
    intro y wid hwf i j si sj hij hi hj
    obtain ⟨hy, hh, _, _, _, _, hrest⟩ := hwf
    cases i with
    | zero =>
      simp only [List.get?_cons_zero, Option.some.injEq] at hi
      subst hi
      cases j with
      | zero => cases hij
      | succ j =>
        simp only [List.get?_cons_succ] at hj
        have := ShelvesWF_get_y_ge rest (y + s.height) wid hrest j sj hj
        omega
    | succ i =>
      cases j with
      | zero => cases hij
      | succ j =>
        simp only [List.get?_cons_succ] at hi hj
        exact ih (y + s.height) wid hrest i j si sj
          (Nat.succ_lt_succ_iff.mp hij) hi hj

/-! #### Growth preserves the invariant -/

theorem ShelvesWF_resize (l : List Shelf) :
    ∀ (y wid w2 : Int), ShelvesWF l y wid → wid ≤ w2 →
      ShelvesWF (l.map fun s => s.resize w2) y w2 := by
  induction l with
  | nil => intro y wid w2 _ _; exact True.intro
  | cons s rest ih =>
    intro y wid w2 hwf hle
    obtain ⟨hy, hh, hf0, hfw, hww, hx, hrest⟩ := hwf
    refine ⟨hy, hh, by simp [Shelf.resize]; omega, by simp [Shelf.resize]; omega,
      by simp [Shelf.resize], by simp [Shelf.resize]; omega,
      ih (y + s.height) wid w2 hrest hle⟩

theorem BinOnShelf_resize {b : Bin} {s : Shelf} (w2 : Int)
    (h : BinOnShelf b s) : BinOnShelf b (s.resize w2) := h

theorem BinPlaced_resize {l : List Shelf} {b : Bin} (w2 : Int)
    (h : BinPlaced l b) : BinPlaced (l.map fun s => s.resize w2) b := by
  obtain ⟨j, s, hget, hon⟩ := h
  refine ⟨j, s.resize w2, ?_, BinOnShelf_resize w2 hon⟩
  rw [List.get?_map, hget]
  rfl

theorem PackInv_resize_ge {st : ShelfPack} (w2 h2 : Int) (hinv : PackInv st)
    (hw2 : st.width ≤ w2) : PackInv (st.resize w2 h2) := by
  refine ⟨hinv.freebins_nil, le_trans hinv.width_nonneg hw2,
    ShelvesWF_resize st.shelves 0 st.width w2 hinv.shelves_wf hw2,
    hinv.keys_match, ?_, hinv.bins_disjoint⟩
  intro p hp
  exact BinPlaced_resize w2 (hinv.bins_placed p hp)

theorem grow_width_ge {st : ShelfPack} (w h : Int) (hw : 0 ≤ w)
    (hwidth : 0 ≤ st.width) : st.width ≤
      (if st.width ≤ st.height ∨ w > st.width then jsCeil125 (max w st.width)
        else st.width) := by
  by_cases hc : st.width ≤ st.height ∨ w > st.width
  · rw [if_pos hc]
    calc st.width ≤ max w st.width := le_max_right _ _
    _ ≤ jsCeil125 (max w st.width) :=
        jsCeil125_ge _ (le_trans hwidth (le_max_right _ _))
  · rw [if_neg hc]

theorem PackInv_grow {st : ShelfPack} (w h : Int) (hinv : PackInv st)
    (hw : 0 ≤ w) : PackInv (st.grow w h) := by
  unfold ShelfPack.grow
  exact PackInv_resize_ge _ _ hinv (grow_width_ge w h hw hinv.width_nonneg)

/-! #### Dictionary updates preserve placement and disjointness -/

theorem mem_replaceEntry {α : Type} {l : List (String × α)} {k : String}
    {v : α} {p : String × α} (hp : p ∈ replaceEntry l k v) :
    p ∈ l ∨ p = (k, v) := by
  induction l with
  | nil => simp [replaceEntry] at hp
  | cons q rest ih =>
    by_cases hk : q.1 = k
    · simp only [replaceEntry, hk, if_true] at hp
      rcases List.mem_cons.mp hp with rfl | hmem
      · right
        first
        | rfl
        | rw [hk]
      · left; exact List.mem_cons_of_mem _ hmem
    · simp only [replaceEntry, hk, if_false] at hp
      rcases List.mem_cons.mp hp with rfl | hmem
      · left; exact List.mem_cons_self _ _
      · rcases ih hmem with h | h
        · left; exact List.mem_cons_of_mem _ h
        · right; exact h

theorem BinOnShelf_rectEq {b b' : Bin} {s : Shelf} (hr : rectEq b' b)
    (h : BinOnShelf b s) : BinOnShelf b' s := by
  obtain ⟨h1, h2, h3, h4⟩ := hr
  obtain ⟨g1, g2, g3, g4, g5, g6⟩ := h
  exact ⟨by omega, by omega, by omega, by omega, by omega, by omega⟩

theorem BinPlaced_rectEq {l : List Shelf} {b b' : Bin} (hr : rectEq b' b)
    (h : BinPlaced l b) : BinPlaced l b' := by
  obtain ⟨j, s, hget, hon⟩ := h
  exact ⟨j, s, hget, BinOnShelf_rectEq hr hon⟩

theorem placed_replaceEntry {shelves : List Shelf}
    {l : List (String × Bin)} {k : String} {v old : Bin}
    (hold : lookupEntry l k = some old) (hrect : rectEq v old)
    (h : ∀ p ∈ l, BinPlaced shelves (p : String × Bin).2) :
    ∀ p ∈ replaceEntry l k v, BinPlaced shelves (p : String × Bin).2 := by
  intro p hp
  rcases mem_replaceEntry hp with hmem | rfl
  · exact h p hmem
  · exact BinPlaced_rectEq hrect (h (k, old) (lookupEntry_mem hold))

theorem pairwise_replaceEntry {l : List (String × Bin)} {k : String}
    {v old : Bin} (hold : lookupEntry l k = some old) (hrect : rectEq v old)
    (h : l.Pairwise fun p q => ¬ binsOverlap p.2 q.2) :
    (replaceEntry l k v).Pairwise fun p q => ¬ binsOverlap p.2 q.2 := by
  induction l with
  | nil => simp [replaceEntry]
  | cons q rest ih =>
    rw [List.pairwise_cons] at h
    obtain ⟨hq, hrest⟩ := h
    by_cases hk : q.1 = k
    · have hqv : old = q.2 := by
        simp only [lookupEntry, hk, if_true, Option.some.injEq] at hold
        exact hold.symm
      simp only [replaceEntry, hk, if_true]
      rw [List.pairwise_cons]
      refine ⟨?_, hrest⟩
      intro r hr
      rw [binsOverlap_rectEq_left (hqv ▸ hrect)]
      exact hq r hr
    · have hold2 : lookupEntry rest k = some old := by
        simpa [lookupEntry, hk] using hold
      simp only [replaceEntry, hk, if_false]
      rw [List.pairwise_cons]
      refine ⟨?_, ih hold2 hrest⟩
      intro r hr
      rcases mem_replaceEntry hr with hmem | rfl
      · exact hq r hmem
      · rw [binsOverlap_rectEq_right hrect]
        exact hq (k, old) (lookupEntry_mem hold2)

/-- The existing-id path (`getBin` hit followed by `ref`) preserves the
invariant. -/
theorem PackInv_refBin {st : ShelfPack} {id : String} {bin : Bin}
    (hinv : PackInv st) (hbin : lookupEntry st.bins id = some bin) :
    PackInv (st.refBin bin).2 := by
  have hid : bin.id = id := hinv.keys_match (id, bin) (lookupEntry_mem hbin)
  have hold : lookupEntry st.bins bin.id = some bin := by rw [hid]; exact hbin
  refine ⟨hinv.freebins_nil, hinv.width_nonneg, hinv.shelves_wf, ?_, ?_, ?_⟩
  · exact KeysMatch_replaceEntry hinv.keys_match rfl
  · exact placed_replaceEntry hold (rectEq_refBin bin) hinv.bins_placed
  · exact pairwise_replaceEntry hold (rectEq_refBin bin) hinv.bins_disjoint

/-! #### Allocating on a shelf preserves the invariant -/

theorem ShelvesWF_get_facts (l : List Shelf) :
    ∀ (y wid : Int) (i : Nat) (s : Shelf), ShelvesWF l y wid →
      l.get? i = some s →
      0 ≤ s.height ∧ 0 ≤ s.free ∧ s.free ≤ s.width ∧ s.width = wid ∧
        s.x = s.width - s.free := by
  induction l with
  | nil => intro y wid i s _ hget; cases hget
  | cons q rest ih =>
    intro y wid i s hwf hget
    obtain ⟨hy, hh, hf0, hfw, hww, hx, hrest⟩ := hwf
    cases i with
    | zero =>
      simp only [List.get?_cons_zero, Option.some.injEq] at hget
      subst hget
      exact ⟨hh, hf0, hfw, hww, hx⟩
    | succ i =>
      simp only [List.get?_cons_succ] at hget
      exact ih (y + q.height) wid i s hrest hget

theorem ShelvesWF_set_alloc (l : List Shelf) :
    ∀ (y wid : Int) (i : Nat) (s : Shelf) (w : Int), ShelvesWF l y wid →
      l.get? i = some s → 0 ≤ w → w ≤ s.free →
      ShelvesWF (l.set i { s with x := s.x + w, free := s.free - w }) y wid := by
  induction l with
  | nil => intro y wid i s w _ hget; cases hget
  | cons q rest ih =>
    intro y wid i s w hwf hget hw hfree
    obtain ⟨hy, hh, hf0, hfw, hww, hx, hrest⟩ := hwf
    cases i with
    | zero =>
      simp only [List.get?_cons_zero, Option.some.injEq] at hget
      subst hget
      exact ⟨hy, hh, by dsimp only; omega, by dsimp only; omega, hww,
        by dsimp only; omega, hrest⟩
    | succ i =>
      simp only [List.get?_cons_succ] at hget
      exact ⟨hy, hh, hf0, hfw, hww, hx,
        ih (y + q.height) wid i s w hrest hget hw hfree⟩

theorem BinPlaced_set_alloc {l : List Shelf} {i : Nat} {s : Shelf} {w : Int}
    {b : Bin} (hget : l.get? i = some s) (hw : 0 ≤ w) (h : BinPlaced l b) :
    BinPlaced (l.set i { s with x := s.x + w, free := s.free - w }) b := by
  obtain ⟨j, sj, hj, hon⟩ := h
  by_cases hij : i = j
  · subst hij
    have hsj : sj = s := by rw [hj] at hget; exact (Option.some.injEq _ _).mp hget.symm |>.symm
    subst hsj
    refine ⟨i, { sj with x := sj.x + w, free := sj.free - w }, ?_, ?_⟩
    · rw [List.get?_set_eq, hj]; rfl
    · obtain ⟨g1, g2, g3, g4, g5, g6⟩ := hon
      exact ⟨g1, g2, g3, g4, g5, by dsimp only; omega⟩
  · exact ⟨j, sj, by rw [List.get?_set_ne _ _ hij]; exact hj, hon⟩

theorem get?_append_left_of_some {α : Type} {l l2 : List α} :
    ∀ {j : Nat} {a : α}, l.get? j = some a → (l ++ l2).get? j = some a := by
  induction l with
  | nil => intro j a h; cases h
  | cons q rest ih =>
    intro j a h
    cases j with
    | zero => exact h
    | succ j => exact ih h

theorem get?_concat_self {α : Type} (l : List α) (a : α) :
    (l ++ [a]).get? l.length = some a := by
  induction l with
  | nil => rfl
  | cons q rest ih => exact ih

theorem BinPlaced_append {l l2 : List Shelf} {b : Bin} (h : BinPlaced l b) :
    BinPlaced (l ++ l2) b := by
  obtain ⟨j, s, hj, hon⟩ := h
  exact ⟨j, s, get?_append_left_of_some hj, hon⟩

/-- Total height of a shelf list (the `y` accumulated by the search loop
of `packOne`). -/
def totalHeight (l : List Shelf) : Int :=
  (l.map Shelf.height).sum

theorem ShelvesWF_append_new (l : List Shelf) :
    ∀ (y wid h : Int), ShelvesWF l y wid → 0 ≤ h → 0 ≤ wid →
      ShelvesWF (l ++ [Shelf.make (y + totalHeight l) wid h]) y wid := by
  induction l with
  | nil =>
    intro y wid h _ hh hwid
    refine ⟨?_, hh, by dsimp only [Shelf.make]; omega,
      by dsimp only [Shelf.make]; omega, rfl, by dsimp only [Shelf.make]; omega,
      True.intro⟩
    dsimp only [Shelf.make]
    simp [totalHeight]
  | cons s rest ih =>
    intro y wid h hwf hh hwid
    obtain ⟨hy, hs, hf0, hfw, hww, hx, hrest⟩ := hwf
    refine ⟨hy, hs, hf0, hfw, hww, hx, ?_⟩
    have harg : y + totalHeight (s :: rest) = (y + s.height) + totalHeight rest := by
      simp only [totalHeight, List.map_cons, List.sum_cons]
      ring
    rw [harg]
    exact ih (y + s.height) wid h hrest hh hwid

/-! #### What the search loops guarantee about their result -/

/-- A shelf index on which `Shelf.alloc w h` is guaranteed to succeed. -/
def GoodShelfIdx (shelves : List Shelf) (w h : Int) (j : Nat) : Prop :=
  ∃ s, shelves.get? j = some s ∧ w ≤ s.free ∧ h ≤ s.height

theorem shelfScan_inr_y (w h : Int) :
    ∀ (l : List Shelf) (i : Nat) (y : Int) (best : Option (BestRef × Int))
      (b2 : Option (BestRef × Int)) (y2 : Int),
      shelfScan l i w h y best = Sum.inr (b2, y2) → y2 = y + totalHeight l := by
  intro l
  induction l with
  | nil =>
    intro i y best b2 y2 hres
    simp only [shelfScan, Sum.inr.injEq, Prod.mk.injEq] at hres
    simp [totalHeight, ← hres.2]
  | cons s rest ih =>
    intro i y best b2 y2 hres
    rw [shelfScan] at hres
    dsimp only at hres
    have harg : ∀ z : Int, z = (y + s.height) + totalHeight rest →
        z = y + totalHeight (s :: rest) := by
      intro z hz
      simp only [totalHeight, List.map_cons, List.sum_cons] at hz ⊢
      omega
    by_cases h1 : w > s.free
    · rw [if_pos h1] at hres
      exact harg _ (ih (i + 1) (y + s.height) best b2 y2 hres)
    · rw [if_neg h1] at hres
      by_cases h2 : h = s.height
      · rw [if_pos h2] at hres; cases hres
      · rw [if_neg h2] at hres
        by_cases h3 : h > s.height
        · rw [if_pos h3] at hres
          exact harg _ (ih (i + 1) (y + s.height) best b2 y2 hres)
        · rw [if_neg h3] at hres
          exact harg _ (ih (i + 1) (y + s.height) _ b2 y2 hres)

theorem shelfScan_inl_good {shelves : List Shelf} {w h : Int} :
    ∀ (l : List Shelf) (i : Nat) (y : Int) (best : Option (BestRef × Int))
      (j : Nat),
      (∀ t s, l.get? t = some s → shelves.get? (i + t) = some s) →
      shelfScan l i w h y best = Sum.inl j → GoodShelfIdx shelves w h j := by
  intro l
  induction l with
  | nil => intro i y best j _ hres; cases hres
  | cons s rest ih =>
    intro i y best j hlink hres
    have hlink0 : shelves.get? i = some s := by
      have := hlink 0 s rfl
      simpa using this
    have hlink1 : ∀ t s2, rest.get? t = some s2 →
        shelves.get? (i + 1 + t) = some s2 := by
      intro t s2 ht
      have := hlink (t + 1) s2 ht
      rwa [show i + (t + 1) = i + 1 + t by omega] at this
    rw [shelfScan] at hres
    dsimp only at hres
    by_cases h1 : w > s.free
    · rw [if_pos h1] at hres
      exact ih (i + 1) (y + s.height) best j hlink1 hres
    · rw [if_neg h1] at hres
      by_cases h2 : h = s.height
      · rw [if_pos h2] at hres
        cases hres
        exact ⟨s, hlink0, by omega, by omega⟩
      · rw [if_neg h2] at hres
        by_cases h3 : h > s.height
        · rw [if_pos h3] at hres
          exact ih (i + 1) (y + s.height) best j hlink1 hres
        · rw [if_neg h3] at hres
          exact ih (i + 1) (y + s.height) _ j hlink1 hres

theorem shelfScan_inr_best_good {shelves : List Shelf} {w h : Int} :
    ∀ (l : List Shelf) (i : Nat) (y : Int) (best : Option (BestRef × Int))
      (b2 : Option (BestRef × Int)) (y2 : Int),
      (∀ t s, l.get? t = some s → shelves.get? (i + t) = some s) →
      (∀ j ws, best = some (BestRef.sh j, ws) → GoodShelfIdx shelves w h j) →
      shelfScan l i w h y best = Sum.inr (b2, y2) →
      ∀ j ws, b2 = some (BestRef.sh j, ws) → GoodShelfIdx shelves w h j := by
  intro l
  induction l with
  | nil =>
    intro i y best b2 y2 _ hbest hres
    simp only [shelfScan, Sum.inr.injEq, Prod.mk.injEq] at hres
    rw [← hres.1]
    exact hbest
  | cons s rest ih =>
    intro i y best b2 y2 hlink hbest hres
    have hlink0 : shelves.get? i = some s := by
      have := hlink 0 s rfl
      simpa using this
    have hlink1 : ∀ t s2, rest.get? t = some s2 →
        shelves.get? (i + 1 + t) = some s2 := by
      intro t s2 ht
      have := hlink (t + 1) s2 ht
      rwa [show i + (t + 1) = i + 1 + t by omega] at this
    rw [shelfScan] at hres
    dsimp only at hres
    by_cases h1 : w > s.free
    · rw [if_pos h1] at hres
      exact ih (i + 1) (y + s.height) best b2 y2 hlink1 hbest hres
    · rw [if_neg h1] at hres
      by_cases h2 : h = s.height
      · rw [if_pos h2] at hres; cases hres
      · rw [if_neg h2] at hres
        by_cases h3 : h > s.height
        · rw [if_pos h3] at hres
          exact ih (i + 1) (y + s.height) best b2 y2 hlink1 hbest hres
        · rw [if_neg h3] at hres
          refine ih (i + 1) (y + s.height) _ b2 y2 hlink1 ?_ hres
          intro j ws hj
          cases hb : best with
          | none =>
            rw [hb] at hj
            simp only [Option.some.injEq, Prod.mk.injEq] at hj
            obtain ⟨hj1, _⟩ := hj
            cases hj1
            exact ⟨s, hlink0, by omega, by omega⟩
          | some c =>
            rw [hb] at hj
            dsimp only at hj
            by_cases hwaste : (s.height - h) * w < c.2
            · rw [if_pos hwaste] at hj
              simp only [Option.some.injEq, Prod.mk.injEq] at hj
              obtain ⟨hj1, _⟩ := hj
              cases hj1
              exact ⟨s, hlink0, by omega, by omega⟩
            · rw [if_neg hwaste] at hj
              exact hbest j ws (by rw [hb, ← hj])

theorem shelfScan_inr_no_fb {w h : Int} :
    ∀ (l : List Shelf) (i : Nat) (y : Int) (best : Option (BestRef × Int))
      (b2 : Option (BestRef × Int)) (y2 : Int),
      (∀ j ws, best ≠ some (BestRef.fb j, ws)) →
      shelfScan l i w h y best = Sum.inr (b2, y2) →
      ∀ j ws, b2 ≠ some (BestRef.fb j, ws) := by
  intro l
  induction l with
  | nil =>
    intro i y best b2 y2 hbest hres
    simp only [shelfScan, Sum.inr.injEq, Prod.mk.injEq] at hres
    rw [← hres.1]
    exact hbest
  | cons s rest ih =>
    intro i y best b2 y2 hbest hres
    rw [shelfScan] at hres
    dsimp only at hres
    by_cases h1 : w > s.free
    · rw [if_pos h1] at hres
      exact ih (i + 1) (y + s.height) best b2 y2 hbest hres
    · rw [if_neg h1] at hres
      by_cases h2 : h = s.height
      · rw [if_pos h2] at hres; cases hres
      · rw [if_neg h2] at hres
        by_cases h3 : h > s.height
        · rw [if_pos h3] at hres
          exact ih (i + 1) (y + s.height) best b2 y2 hbest hres
        · rw [if_neg h3] at hres
          refine ih (i + 1) (y + s.height) _ b2 y2 ?_ hres
          intro j ws
          cases hb : best with
          | none =>
            simp
          | some c =>
            obtain ⟨c1, c2⟩ := c
            dsimp only
            by_cases hwaste : (s.height - h) * w < c2
            · rw [if_pos hwaste]
              simp
            · rw [if_neg hwaste]
              rw [hb] at hbest
              exact hbest j ws

theorem insertEntry_of_none {α : Type} {l : List (String × α)} {k : String}
    (h : lookupEntry l k = none) (v : α) : insertEntry l k v = l ++ [(k, v)] := by
  unfold insertEntry
  rw [h]
  rfl

/-- Allocating on a shelf with room (the guard of every `allocShelf` call
site in `packOne`) succeeds and preserves the invariant. -/
theorem allocShelf_PackInv {st : ShelfPack} {i : Nat} {w h : Int}
    {id : String} {s : Shelf} (hinv : PackInv st)
    (hget : st.shelves.get? i = some s) (hw : 0 ≤ w) (hh : 0 ≤ h)
    (hfree : w ≤ s.free) (hheight : h ≤ s.height)
    (hfresh : lookupEntry st.bins id = none) :
    ∀ ob st2, st.allocShelf i w h id = (ob, st2) →
      PackInv st2 ∧ ob.isSome = true := by
  intro ob st2 hr
  obtain ⟨hsh, hsf0, hsfw, hsww, hsx⟩ :=
    ShelvesWF_get_facts st.shelves 0 st.width i s hinv.shelves_wf hget
  have halloc : s.alloc w h id =
      some (Bin.make id s.x s.y w h w s.height,
        { s with x := s.x + w, free := s.free - w }) := by
    unfold Shelf.alloc
    rw [if_neg (by push_neg; exact ⟨not_lt.mp (by omega), not_lt.mp (by omega)⟩)]
  unfold ShelfPack.allocShelf at hr
  rw [hget] at hr
  dsimp only at hr
  rw [halloc] at hr
  dsimp only [ShelfPack.refBin] at hr
  simp only [Prod.mk.injEq] at hr
  obtain ⟨hob, hst2⟩ := hr
  subst hob
  subst hst2
  refine ⟨?_, rfl⟩
  -- placement of the fresh bin on the advanced shelf
  have honnew : BinOnShelf (Bin.make id s.x s.y w h w s.height)
      { s with x := s.x + w, free := s.free - w } := by
    refine ⟨rfl, hh, hheight, ?_, hw, ?_⟩
    · dsimp only [Bin.make]
      omega
    · dsimp only [Bin.make]
      omega
  have hsetget : (st.shelves.set i
      { s with x := s.x + w, free := s.free - w }).get? i =
      some { s with x := s.x + w, free := s.free - w } := by
    rw [List.get?_set_eq, hget]
    rfl
  -- the intermediate bin dictionary is an append
  have hins := insertEntry_of_none hfresh (Bin.make id s.x s.y w h w s.height)
  -- placement for every entry of the intermediate dictionary
  have hplaced1 : ∀ p ∈ insertEntry st.bins id
      (Bin.make id s.x s.y w h w s.height),
      BinPlaced (st.shelves.set i { s with x := s.x + w, free := s.free - w })
        (p : String × Bin).2 := by
    rw [hins]
    intro p hp
    rcases List.mem_append.mp hp with hmem | hmem
    · exact BinPlaced_set_alloc hget hw (hinv.bins_placed p hmem)
    · rcases List.mem_singleton.mp hmem with rfl
      exact ⟨i, _, hsetget, honnew⟩
  -- pairwise disjointness for the intermediate dictionary
  have hpair1 : (insertEntry st.bins id
      (Bin.make id s.x s.y w h w s.height)).Pairwise
      (fun p q => ¬ binsOverlap p.2 q.2) := by
    rw [hins]
    rw [List.pairwise_append]
    refine ⟨hinv.bins_disjoint, by simp, ?_⟩
    intro p hp q hq
    rcases List.mem_singleton.mp hq with rfl
    obtain ⟨j, sj, hj, honj⟩ := hinv.bins_placed p hp
    obtain ⟨hpy, hph0, hphs, hpx0, hpw0, hpend⟩ := honj
    intro hov
    unfold binsOverlap at hov
    simp only [Bin.make] at hov
    obtain ⟨o1, o2, o3, o4⟩ := hov
    obtain ⟨hsjh, hsjf0, hsjfw, hsjww, hsjx⟩ :=
      ShelvesWF_get_facts st.shelves 0 st.width j sj hinv.shelves_wf hj
    rcases Nat.lt_trichotomy j i with hji | rfl | hij
    · have hstrip := ShelvesWF_strips st.shelves 0 st.width hinv.shelves_wf
        j i sj s hji hj hget
      omega
    · have hsj : sj = s := by
        have h2 := hj
        rw [hget] at h2
        exact (Option.some.injEq _ _).mp h2.symm
      subst hsj
      omega
    · have hstrip := ShelvesWF_strips st.shelves 0 st.width hinv.shelves_wf
        i j s sj hij hget hj
      omega
  -- lookup of the fresh bin in the intermediate dictionary
  have hold : lookupEntry (insertEntry st.bins id
      (Bin.make id s.x s.y w h w s.height)) id =
      some (Bin.make id s.x s.y w h w s.height) :=
    lookupEntry_insertEntry_self _ _ _
  have hrect : rectEq
      { Bin.make id s.x s.y w h w s.height with
        refcount := (Bin.make id s.x s.y w h w s.height).refcount + 1 }
      (Bin.make id s.x s.y w h w s.height) := rectEq_refBin _
  have hnbid : (Bin.make id s.x s.y w h w s.height).id = id := rfl
  refine ⟨hinv.freebins_nil, hinv.width_nonneg, ?_, ?_, ?_, ?_⟩
  · exact ShelvesWF_set_alloc st.shelves 0 st.width i s w hinv.shelves_wf
      hget hw hfree
  · have hk1 : KeysMatch (insertEntry st.bins id
        (Bin.make id s.x s.y w h w s.height)) :=
      KeysMatch_insertEntry hinv.keys_match hnbid
    exact KeysMatch_replaceEntry hk1 hnbid
  · exact placed_replaceEntry hold hrect hplaced1
  · exact pairwise_replaceEntry hold hrect hpair1

/-- Appending a fresh empty shelf of nonnegative height at the bottom of
the surface preserves the invariant. -/
theorem PackInv_append_shelf {st : ShelfPack} (h : Int) (hinv : PackInv st)
    (hh : 0 ≤ h) :
    PackInv { st with shelves :=
      st.shelves ++ [Shelf.make (0 + totalHeight st.shelves) st.width h] } := by
  refine ⟨hinv.freebins_nil, hinv.width_nonneg, ?_, hinv.keys_match, ?_,
    hinv.bins_disjoint⟩
  · exact ShelvesWF_append_new st.shelves 0 st.width h hinv.shelves_wf hh
      hinv.width_nonneg
  · intro p hp
    exact BinPlaced_append (hinv.bins_placed p hp)

/-- One body pass of `packOne` preserves the invariant, both when it
completes and when it grows and retries. -/
theorem packOneStep_PackInv {st : ShelfPack} {w h : Int} {id : String}
    (hinv : PackInv st) (hw : 0 ≤ w) (hh : 0 ≤ h) :
    (∀ r, packOneStep st w h id = Sum.inl r → PackInv r.2) ∧
      (∀ st2, packOneStep st w h id = Sum.inr st2 → PackInv st2) := by
  unfold packOneStep
  cases hbin : st.getBin id with
  | some bin =>
    dsimp only [ShelfPack.refBin]
    constructor
    · intro r hr
      simp only [Sum.inl.injEq] at hr
      rw [← hr]
      exact PackInv_refBin hinv hbin
    · intro st2 hr
      cases hr
  | none =>
    have hfb : freebinScan st.freebins 0 w h none = Sum.inr none := by
      rw [hinv.freebins_nil]
      rfl
    rw [hfb]
    simp only [Option.map_none']
    cases hss : shelfScan st.shelves 0 w h 0 none with
    | inl i =>
      obtain ⟨s, hgets, hf, hht⟩ := shelfScan_inl_good st.shelves 0 0 none i
        (by intro t s2 ht; simpa using ht) hss
      constructor
      · intro r hr
        simp only [Sum.inl.injEq] at hr
        have := allocShelf_PackInv hinv hgets hw hh hf hht hbin r.1 r.2
          (by rw [hr])
        exact this.1
      · intro st2 hr
        cases hr
    | inr br =>
      obtain ⟨best, y⟩ := br
      cases best with
      | some c =>
        obtain ⟨ref, ws⟩ := c
        cases ref with
        | fb i =>
          have := shelfScan_inr_no_fb st.shelves 0 0 none (some (BestRef.fb i, ws))
            y (by intro j ws2 hc; cases hc) hss i ws
          exact absurd rfl this
        | sh i =>
          dsimp only
          obtain ⟨s, hgets, hf, hht⟩ := shelfScan_inr_best_good st.shelves 0 0
            none (some (BestRef.sh i, ws)) y
            (by intro t s2 ht; simpa using ht)
            (by intro j ws2 hc; cases hc) hss i ws rfl
          constructor
          · intro r hr
            simp only [Sum.inl.injEq] at hr
            have := allocShelf_PackInv hinv hgets hw hh hf hht hbin r.1 r.2
              (by rw [hr])
            exact this.1
          · intro st2 hr
            cases hr
      | none =>
        dsimp only
        have hy : y = 0 + totalHeight st.shelves :=
          shelfScan_inr_y w h st.shelves 0 0 none none y hss
        by_cases hfit : h ≤ st.height - y ∧ w ≤ st.width
        · rw [if_pos hfit]
          have hinv2 : PackInv { st with shelves :=
              st.shelves ++ [Shelf.make y st.width h] } := by
            rw [hy]
            exact PackInv_append_shelf h hinv hh
          have hgetns : ({ st with shelves :=
              st.shelves ++ [Shelf.make y st.width h] } : ShelfPack).shelves.get?
              ((st.shelves ++ [Shelf.make y st.width h]).length - 1) =
              some (Shelf.make y st.width h) := by
            dsimp only
            rw [List.length_append]
            simp only [List.length_singleton]
            rw [show st.shelves.length + 1 - 1 = st.shelves.length from by omega]
            exact get?_concat_self _ _
          constructor
          · intro r hr
            simp only [Sum.inl.injEq] at hr
            have := allocShelf_PackInv hinv2 hgetns hw hh
              (by dsimp only [Shelf.make]; exact hfit.2)
              (le_refl h) hbin r.1 r.2 (by rw [hr])
            exact this.1
          · intro st2 hr
            cases hr
        · rw [if_neg hfit]
          by_cases har : st.autoResize = true
          · rw [if_pos har]
            constructor
            · intro r hr
              cases hr
            · intro st2 hr
              simp only [Sum.inr.injEq] at hr
              rw [← hr]
              exact PackInv_grow w h hinv hw
          · rw [if_neg har]
            constructor
            · intro r hr
              simp only [Sum.inl.injEq] at hr
              rw [← hr]
              exact hinv
            · intro st2 hr
              cases hr

/-- `packOne` preserves the invariant for any fuel. -/
theorem packOne_PackInv :
    ∀ (n : Nat) (st : ShelfPack) {w h : Int} {id : String}, PackInv st →
      0 ≤ w → 0 ≤ h → PackInv (packOne n st w h id).2 := by
  intro n
  induction n with
  | zero => intro st w h id hinv _ _; exact hinv
  | succ n ih =>
    intro st w h id hinv hw hh
    rw [packOne]
    cases hstep : packOneStep st w h id with
    | inl r =>
      exact (packOneStep_PackInv hinv hw hh).1 r hstep
    | inr st2 =>
      exact ih st2 ((packOneStep_PackInv hinv hw hh).2 st2 hstep) hw hh

/-- A sequence of `packOne` requests, each with its own retry fuel. -/
def runPackRequests (st : ShelfPack)
    (reqs : List (Nat × Int × Int × String)) : ShelfPack :=
  reqs.foldl (fun s r => (packOne r.1 s r.2.1 r.2.2.1 r.2.2.2).2) st

theorem runPackRequests_PackInv :
    ∀ (reqs : List (Nat × Int × Int × String)) (st : ShelfPack), PackInv st →
      (∀ r ∈ reqs, 0 ≤ r.2.1 ∧ 0 ≤ r.2.2.1) →
      PackInv (runPackRequests st reqs) := by
  intro reqs
  induction reqs with
  | nil => intro st hinv _; exact hinv
  | cons r rest ih =>
    intro st hinv hok
    have hr := hok r (List.mem_cons_self _ _)
    exact ih _ (packOne_PackInv r.1 st hinv hr.1 hr.2)
      (fun q hq => hok q (List.mem_cons_of_mem _ hq))

/-- C6: for every sequence of `packOne` calls (each of nonnegative
requested width and height, with any retry fuel) on a fresh auto-resizing
packer of nonnegative initial width, no two live (refcount > 0) bins of
the resulting state have overlapping rectangles. -/
theorem packOne_live_bins_no_overlap (w0 h0 : Int)
    (reqs : List (Nat × Int × Int × String)) (hw0 : 0 ≤ w0)
    (hreqs : ∀ r ∈ reqs, 0 ≤ r.2.1 ∧ 0 ≤ r.2.2.1) :
    ((runPackRequests (ShelfPack.make w0 h0 true) reqs).bins.filter
        (fun p => 0 < p.2.refcount)).Pairwise
      (fun p q => ¬ binsOverlap p.2 q.2) := by
  have hinv := runPackRequests_PackInv reqs (ShelfPack.make w0 h0 true)
    (PackInv_make w0 h0 true hw0) hreqs
  exact hinv.bins_disjoint.sublist (List.filter_sublist _)

/-- Witness for `packOne_live_bins_no_overlap`: three concrete requests
(the third forcing auto-resize growth) on a 4×4 packer. -/
theorem packOne_live_bins_no_overlap_witness :
    ((runPackRequests (ShelfPack.make 4 4 true)
        [(5, 3, 3, "a"), (5, 4, 2, "b"), (5, 10, 1, "c")]).bins.filter
        (fun p => 0 < p.2.refcount)).Pairwise
      (fun p q => ¬ binsOverlap p.2 q.2) :=
  packOne_live_bins_no_overlap 4 4
    [(5, 3, 3, "a"), (5, 4, 2, "b"), (5, 10, 1, "c")] (by decide)
    (by decide)

/-! ### C9: with auto-resize, `packOne` always allocates -/

theorem freebinScan_inl_valid {bins : List Bin} {w h : Int} :
    ∀ (l : List Bin) (i : Nat) (best : Option (Nat × Int)) (j : Nat),
      (∀ t b, l.get? t = some b → bins.get? (i + t) = some b) →
      freebinScan l i w h best = Sum.inl j → ∃ b, bins.get? j = some b := by
  intro l
  induction l with
  | nil => intro i best j _ hres; cases hres
  | cons b rest ih =>
    intro i best j hlink hres
    have hlink0 : bins.get? i = some b := by
      have := hlink 0 b rfl
      simpa using this
    have hlink1 : ∀ t b2, rest.get? t = some b2 →
        bins.get? (i + 1 + t) = some b2 := by
      intro t b2 ht
      have := hlink (t + 1) b2 ht
      rwa [show i + (t + 1) = i + 1 + t by omega] at this
    rw [freebinScan] at hres
    dsimp only at hres
    by_cases h1 : h = b.maxh ∧ w = b.maxw
    · rw [if_pos h1] at hres
      cases hres
      exact ⟨b, hlink0⟩
    · rw [if_neg h1] at hres
      by_cases h2 : h > b.maxh ∨ w > b.maxw
      · rw [if_pos h2] at hres
        exact ih (i + 1) best j hlink1 hres
      · rw [if_neg h2] at hres
        exact ih (i + 1) _ j hlink1 hres

theorem freebinScan_inr_best_valid {bins : List Bin} {w h : Int} :
    ∀ (l : List Bin) (i : Nat) (best best2 : Option (Nat × Int)),
      (∀ t b, l.get? t = some b → bins.get? (i + t) = some b) →
      (∀ j ws, best = some (j, ws) → ∃ b, bins.get? j = some b) →
      freebinScan l i w h best = Sum.inr best2 →
      ∀ j ws, best2 = some (j, ws) → ∃ b, bins.get? j = some b := by
  intro l
  induction l with
  | nil =>
    intro i best best2 _ hbest hres
    simp only [freebinScan, Sum.inr.injEq] at hres
    rw [← hres]
    exact hbest
  | cons b rest ih =>
    intro i best best2 hlink hbest hres
    have hlink0 : bins.get? i = some b := by
      have := hlink 0 b rfl
      simpa using this
    have hlink1 : ∀ t b2, rest.get? t = some b2 →
        bins.get? (i + 1 + t) = some b2 := by
      intro t b2 ht
      have := hlink (t + 1) b2 ht
      rwa [show i + (t + 1) = i + 1 + t by omega] at this
    rw [freebinScan] at hres
    dsimp only at hres
    by_cases h1 : h = b.maxh ∧ w = b.maxw
    · rw [if_pos h1] at hres
      cases hres
    · rw [if_neg h1] at hres
      by_cases h2 : h > b.maxh ∨ w > b.maxw
      · rw [if_pos h2] at hres
        exact ih (i + 1) best best2 hlink1 hbest hres
      · rw [if_neg h2] at hres
        refine ih (i + 1) _ best2 hlink1 ?_ hres
        intro j ws hj
        cases hb : best with
        | none =>
          rw [hb] at hj
          simp only [Option.some.injEq, Prod.mk.injEq] at hj
          obtain ⟨hj1, _⟩ := hj
          subst hj1
          exact ⟨b, hlink0⟩
        | some c =>
          obtain ⟨c1, c2⟩ := c
          rw [hb] at hj
          dsimp only at hj
          by_cases hwaste : b.maxw * b.maxh - w * h < c2
          · rw [if_pos hwaste] at hj
            simp only [Option.some.injEq, Prod.mk.injEq] at hj
            obtain ⟨hj1, _⟩ := hj
            subst hj1
            exact ⟨b, hlink0⟩
          · rw [if_neg hwaste] at hj
            rw [hb] at hbest
            exact hbest j ws hj

theorem shelfScan_fb_pres {w h : Int} (P : Nat → Prop) :
    ∀ (l : List Shelf) (i : Nat) (y : Int) (best : Option (BestRef × Int))
      (b2 : Option (BestRef × Int)) (y2 : Int),
      (∀ j ws, best = some (BestRef.fb j, ws) → P j) →
      shelfScan l i w h y best = Sum.inr (b2, y2) →
      ∀ j ws, b2 = some (BestRef.fb j, ws) → P j := by
  intro l
  induction l with
  | nil =>
    intro i y best b2 y2 hbest hres
    simp only [shelfScan, Sum.inr.injEq, Prod.mk.injEq] at hres
    rw [← hres.1]
    exact hbest
  | cons s rest ih =>
    intro i y best b2 y2 hbest hres
    rw [shelfScan] at hres
    dsimp only at hres
    by_cases h1 : w > s.free
    · rw [if_pos h1] at hres
      exact ih (i + 1) (y + s.height) best b2 y2 hbest hres
    · rw [if_neg h1] at hres
      by_cases h2 : h = s.height
      · rw [if_pos h2] at hres; cases hres
      · rw [if_neg h2] at hres
        by_cases h3 : h > s.height
        · rw [if_pos h3] at hres
          exact ih (i + 1) (y + s.height) best b2 y2 hbest hres
        · rw [if_neg h3] at hres
          refine ih (i + 1) (y + s.height) _ b2 y2 ?_ hres
          intro j ws
          cases hb : best with
          | none => simp
          | some c =>
            obtain ⟨c1, c2⟩ := c
            dsimp only
            by_cases hwaste : (s.height - h) * w < c2
            · rw [if_pos hwaste]
              intro hc
              cases hc
            · rw [if_neg hwaste]
              rw [hb] at hbest
              exact hbest j ws

theorem allocFreebin_succeeds {st : ShelfPack} {i : Nat} (w h : Int)
    (id : String) {bin : Bin} (hget : st.freebins.get? i = some bin) :
    ∃ b st2, st.allocFreebin i w h id = (some b, st2) := by
  unfold ShelfPack.allocFreebin
  rw [hget]
  dsimp only [ShelfPack.refBin]
  exact ⟨_, _, rfl⟩

theorem allocShelf_succeeds {st : ShelfPack} {i : Nat} {w h : Int}
    (id : String) {s : Shelf} (hget : st.shelves.get? i = some s)
    (hfree : w ≤ s.free) (hheight : h ≤ s.height) :
    ∃ b st2, st.allocShelf i w h id = (some b, st2) := by
  unfold ShelfPack.allocShelf
  rw [hget]
  dsimp only
  have halloc : s.alloc w h id =
      some (Bin.make id s.x s.y w h w s.height,
        { s with x := s.x + w, free := s.free - w }) := by
    unfold Shelf.alloc
    rw [if_neg (by push_neg; exact ⟨not_lt.mp (by omega), not_lt.mp (by omega)⟩)]
  rw [halloc]
  dsimp only [ShelfPack.refBin]
  exact ⟨_, _, rfl⟩

/-- Whenever the requested width fits the surface width and the requested
height fits below the existing shelves, one body pass of `packOne`
completes with an allocation (whatever branch it takes). -/
theorem packOneStep_some_of_fits {st : ShelfPack} {w h : Int} (id : String)
    (hfitw : w ≤ st.width) (hfith : totalHeight st.shelves + h ≤ st.height) :
    ∃ b st2, packOneStep st w h id = Sum.inl (some b, st2) := by
  unfold packOneStep
  cases hbin : st.getBin id with
  | some bin =>
    dsimp only [ShelfPack.refBin]
    exact ⟨_, _, rfl⟩
  | none =>
    cases hfs : freebinScan st.freebins 0 w h none with
    | inl i =>
      dsimp only
      obtain ⟨bin, hget⟩ := freebinScan_inl_valid st.freebins 0 none i
        (by intro t b ht; simpa using ht) hfs
      obtain ⟨b, st2, hr⟩ := allocFreebin_succeeds w h id hget
      refine ⟨b, st2, ?_⟩
      show Sum.inl (st.allocFreebin i w h id) = _
      rw [hr]
    | inr bestF =>
      dsimp only
      cases hss : shelfScan st.shelves 0 w h 0
          (bestF.map fun p => (BestRef.fb p.1, p.2)) with
      | inl i =>
        obtain ⟨s, hgets, hf, hht⟩ := shelfScan_inl_good st.shelves 0 0 _ i
          (by intro t s2 ht; simpa using ht) hss
        obtain ⟨b, st2, hr⟩ := allocShelf_succeeds id hgets hf hht
        refine ⟨b, st2, ?_⟩
        show Sum.inl (st.allocShelf i w h id) = _
        rw [hr]
      | inr br =>
        obtain ⟨best, y⟩ := br
        cases best with
        | some c =>
          obtain ⟨ref, ws⟩ := c
          cases ref with
          | fb i =>
            dsimp only
            have hpres := shelfScan_fb_pres
              (fun j => ∃ b, st.freebins.get? j = some b) st.shelves 0 0
              (bestF.map fun p => (BestRef.fb p.1, p.2))
              (some (BestRef.fb i, ws)) y ?_ hss i ws rfl
            · obtain ⟨bin, hget⟩ := hpres
              obtain ⟨b, st2, hr⟩ := allocFreebin_succeeds w h id hget
              refine ⟨b, st2, ?_⟩
              show Sum.inl (st.allocFreebin i w h id) = _
              rw [hr]
            · intro j ws2 hc
              cases hbf : bestF with
              | none => rw [hbf] at hc; cases hc
              | some p =>
                rw [hbf] at hc
                simp only [Option.map_some', Option.some.injEq,
                  Prod.mk.injEq, BestRef.fb.injEq] at hc
                obtain ⟨hj, _⟩ := hc
                subst hj
                exact freebinScan_inr_best_valid st.freebins 0 none
                  (some p) (by intro t b ht; simpa using ht)
                  (by intro j2 ws3 hc2; cases hc2)
                  (by rw [← hbf]; exact hfs) p.1 p.2 rfl
          | sh i =>
            dsimp only
            obtain ⟨s, hgets, hf, hht⟩ := shelfScan_inr_best_good st.shelves
              0 0 _ (some (BestRef.sh i, ws)) y
              (by intro t s2 ht; simpa using ht)
              (by intro j ws2 hc
                  cases hbf : bestF with
                  | none => rw [hbf] at hc; cases hc
                  | some p =>
                    rw [hbf] at hc
                    simp only [Option.map_some', Option.some.injEq,
                      Prod.mk.injEq] at hc
                    cases hc.1)
              hss i ws rfl
            obtain ⟨b, st2, hr⟩ := allocShelf_succeeds id hgets hf hht
            refine ⟨b, st2, ?_⟩
            show Sum.inl (st.allocShelf i w h id) = _
            rw [hr]
        | none =>
          dsimp only
          have hy : y = 0 + totalHeight st.shelves :=
            shelfScan_inr_y w h st.shelves 0 0 _ none y hss
          have hfit : h ≤ st.height - y ∧ w ≤ st.width := by
            constructor
            · omega
            · exact hfitw
          rw [if_pos hfit]
          have hgetns : ({ st with shelves :=
              st.shelves ++ [Shelf.make y st.width h] } : ShelfPack).shelves.get?
              ((st.shelves ++ [Shelf.make y st.width h]).length - 1) =
              some (Shelf.make y st.width h) := by
            dsimp only
            rw [List.length_append]
            simp only [List.length_singleton]
            rw [show st.shelves.length + 1 - 1 = st.shelves.length from by omega]
            exact get?_concat_self _ _
          obtain ⟨b, st2, hr⟩ := allocShelf_succeeds id hgetns
            (by dsimp only [Shelf.make]; exact hfitw) (le_refl h)
          refine ⟨b, st2, ?_⟩
          show Sum.inl (({ st with shelves :=
              st.shelves ++ [Shelf.make y st.width h] } : ShelfPack).allocShelf
            ((st.shelves ++ [Shelf.make y st.width h]).length - 1) w h id) = _
          rw [hr]

theorem grow_autoResize (st : ShelfPack) (w h : Int) :
    (st.grow w h).autoResize = st.autoResize := rfl

theorem grow_width_eq (st : ShelfPack) (w h : Int) :
    (st.grow w h).width =
      (if st.width ≤ st.height ∨ w > st.width then jsCeil125 (max w st.width)
        else st.width) := rfl

theorem grow_height_eq (st : ShelfPack) (w h : Int) :
    (st.grow w h).height =
      (if st.height < st.width ∨ h > st.height then jsCeil125 (max h st.height)
        else st.height) := rfl

theorem totalHeight_map_resize (l : List Shelf) (w : Int) :
    totalHeight (l.map fun s => s.resize w) = totalHeight l := by
  unfold totalHeight
  induction l with
  | nil => rfl
  | cons s rest ih =>
    simp only [List.map_cons, List.sum_cons, Shelf.resize] at ih ⊢
    omega

theorem grow_totalHeight (st : ShelfPack) (w h : Int) :
    totalHeight (st.grow w h).shelves = totalHeight st.shelves := by
  unfold ShelfPack.grow ShelfPack.resize
  exact totalHeight_map_resize _ _

theorem packOne_one_inl {st : ShelfPack} {w h : Int} {id : String}
    {r : Option Bin × ShelfPack} (hstep : packOneStep st w h id = Sum.inl r) :
    packOne 1 st w h id = r := by
  rw [packOne, hstep]

theorem packOne_succ_inr {n : Nat} {st : ShelfPack} {w h : Int} {id : String}
    {st2 : ShelfPack} (hstep : packOneStep st w h id = Sum.inr st2) :
    packOne (n + 1) st w h id = packOne n st2 w h id := by
  rw [packOne, hstep]

/-- Adding fuel never loses a successful `packOne` result. -/
theorem packOne_mono :
    ∀ (n m : Nat), n ≤ m → ∀ {st : ShelfPack} {w h : Int} {id : String}
      {b : Bin} {st2 : ShelfPack}, packOne n st w h id = (some b, st2) →
      packOne m st w h id = (some b, st2) := by
  intro n
  induction n with
  | zero =>
    intro m _ st w h id b st2 hres
    simp only [packOne, Prod.mk.injEq] at hres
    cases hres.1
  | succ n ih =>
    intro m hm st w h id b st2 hres
    obtain ⟨m2, rfl⟩ : ∃ m2, m = m2 + 1 := ⟨m - 1, by omega⟩
    rw [packOne] at hres ⊢
    cases hstep : packOneStep st w h id with
    | inl r =>
      rw [hstep] at hres
      exact hres
    | inr st3 =>
      rw [hstep] at hres
      exact ih m2 (by omega) hres

/-- One body pass of `packOne` either allocates, or fails finally with
auto-resize disabled, or grows with auto-resize enabled — and in the two
non-allocating cases the request did not fit below the shelves. -/
theorem packOneStep_cases (st : ShelfPack) (w h : Int) (id : String) :
    (∃ b st2, packOneStep st w h id = Sum.inl (some b, st2)) ∨
      (((packOneStep st w h id = Sum.inl (none, st) ∧
          st.autoResize = false) ∨
        (packOneStep st w h id = Sum.inr (st.grow w h) ∧
          st.autoResize = true)) ∧
        ¬(h ≤ st.height - totalHeight st.shelves ∧ w ≤ st.width)) := by
  unfold packOneStep
  cases hbin : st.getBin id with
  | some bin =>
    left
    dsimp only [ShelfPack.refBin]
    exact ⟨_, _, rfl⟩
  | none =>
    cases hfs : freebinScan st.freebins 0 w h none with
    | inl i =>
      left
      dsimp only
      obtain ⟨bin, hget⟩ := freebinScan_inl_valid st.freebins 0 none i
        (by intro t b ht; simpa using ht) hfs
      obtain ⟨b, st2, hr⟩ := allocFreebin_succeeds w h id hget
      refine ⟨b, st2, ?_⟩
      show Sum.inl (st.allocFreebin i w h id) = _
      rw [hr]
    | inr bestF =>
      dsimp only
      cases hss : shelfScan st.shelves 0 w h 0
          (bestF.map fun p => (BestRef.fb p.1, p.2)) with
      | inl i =>
        left
        obtain ⟨s, hgets, hf, hht⟩ := shelfScan_inl_good st.shelves 0 0 _ i
          (by intro t s2 ht; simpa using ht) hss
        obtain ⟨b, st2, hr⟩ := allocShelf_succeeds id hgets hf hht
        refine ⟨b, st2, ?_⟩
        show Sum.inl (st.allocShelf i w h id) = _
        rw [hr]
      | inr br =>
        obtain ⟨best, y⟩ := br
        cases best with
        | some c =>
          obtain ⟨ref, ws⟩ := c
          cases ref with
          | fb i =>
            left
            dsimp only
            have hpres := shelfScan_fb_pres
              (fun j => ∃ b, st.freebins.get? j = some b) st.shelves 0 0
              (bestF.map fun p => (BestRef.fb p.1, p.2))
              (some (BestRef.fb i, ws)) y ?_ hss i ws rfl
            · obtain ⟨bin, hget⟩ := hpres
              obtain ⟨b, st2, hr⟩ := allocFreebin_succeeds w h id hget
              refine ⟨b, st2, ?_⟩
              show Sum.inl (st.allocFreebin i w h id) = _
              rw [hr]
            · intro j ws2 hc
              cases hbf : bestF with
              | none => rw [hbf] at hc; cases hc
              | some p =>
                rw [hbf] at hc
                simp only [Option.map_some', Option.some.injEq,
                  Prod.mk.injEq, BestRef.fb.injEq] at hc
                obtain ⟨hj, _⟩ := hc
                subst hj
                exact freebinScan_inr_best_valid st.freebins 0 none
                  (some p) (by intro t b ht; simpa using ht)
                  (by intro j2 ws3 hc2; cases hc2)
                  (by rw [← hbf]; exact hfs) p.1 p.2 rfl
          | sh i =>
            left
            dsimp only
            obtain ⟨s, hgets, hf, hht⟩ := shelfScan_inr_best_good st.shelves
              0 0 _ (some (BestRef.sh i, ws)) y
              (by intro t s2 ht; simpa using ht)
              (by intro j ws2 hc
                  cases hbf : bestF with
                  | none => rw [hbf] at hc; cases hc
                  | some p =>
                    rw [hbf] at hc
                    simp only [Option.map_some', Option.some.injEq,
                      Prod.mk.injEq] at hc
                    cases hc.1)
              hss i ws rfl
            obtain ⟨b, st2, hr⟩ := allocShelf_succeeds id hgets hf hht
            refine ⟨b, st2, ?_⟩
            show Sum.inl (st.allocShelf i w h id) = _
            rw [hr]
        | none =>
          dsimp only
          have hy : y = 0 + totalHeight st.shelves :=
            shelfScan_inr_y w h st.shelves 0 0 _ none y hss
          by_cases hfit : h ≤ st.height - y ∧ w ≤ st.width
          · left
            rw [if_pos hfit]
            have hgetns : ({ st with shelves :=
                st.shelves ++ [Shelf.make y st.width h] } :
                ShelfPack).shelves.get?
                ((st.shelves ++ [Shelf.make y st.width h]).length - 1) =
                some (Shelf.make y st.width h) := by
              dsimp only
              rw [List.length_append]
              simp only [List.length_singleton]
              rw [show st.shelves.length + 1 - 1 = st.shelves.length from by
                omega]
              exact get?_concat_self _ _
            obtain ⟨b, st2, hr⟩ := allocShelf_succeeds id hgetns
              (by dsimp only [Shelf.make]; exact hfit.2) (le_refl h)
            refine ⟨b, st2, ?_⟩
            show Sum.inl (({ st with shelves :=
                st.shelves ++ [Shelf.make y st.width h] } :
                ShelfPack).allocShelf
              ((st.shelves ++ [Shelf.make y st.width h]).length - 1) w h id) = _
            rw [hr]
          · right
            rw [if_neg hfit]
            constructor
            · by_cases har : st.autoResize = true
              · rw [if_pos har]
                exact Or.inr ⟨rfl, har⟩
              · rw [if_neg har]
                refine Or.inl ⟨rfl, ?_⟩
                revert har
                cases st.autoResize <;> simp
            · rw [hy] at hfit
              omega

/-- C9: with auto-resize enabled, `packOne` never returns `null` for a
positive request — the grow-and-retry recursion reaches a successful
allocation, so some fuel bound makes every larger fuel succeed.  (The
`0 ≤ totalHeight` hypothesis holds in every reachable state, where all
shelf heights are nonnegative.) -/
theorem packOne_total_when_autoResize (st : ShelfPack) (w h : Int)
    (id : String) (har : st.autoResize = true) (hw : 1 ≤ w) (hh : 1 ≤ h)
    (hy : 0 ≤ totalHeight st.shelves) :
    ∃ n, ∀ m, n ≤ m → ∃ b st2, packOne m st w h id = (some b, st2) := by
  suffices hex : ∃ n b st2, packOne n st w h id = (some b, st2) by
    obtain ⟨n, b, st2, hres⟩ := hex
    exact ⟨n, fun m hm => ⟨b, st2, packOne_mono n m hm hres⟩⟩
  have main : ∀ (d c : Nat) (st1 : ShelfPack),
      st1.autoResize = true → 0 ≤ totalHeight st1.shelves →
      ((totalHeight st1.shelves + h) - st1.height).toNat = d →
      ((st1.height + 1) - st1.width).toNat = c →
      ∃ n b st2, packOne n st1 w h id = (some b, st2) := by
    intro d
    induction d using Nat.strong_induction_on with
    | _ d ihd =>
      intro c
      induction c using Nat.strong_induction_on with
      | _ c ihc =>
        intro st1 har1 hy1 hD hC
        rcases packOneStep_cases st1 w h id with ⟨b, st2, hstep⟩ | ⟨hsteps, hnofit⟩
        · exact ⟨1, b, st2, packOne_one_inl hstep⟩
        rcases hsteps with ⟨_, hfalse⟩ | ⟨hstep, _⟩
        · rw [har1] at hfalse
          exact Bool.noConfusion hfalse
        have hY : totalHeight (st1.grow w h).shelves = totalHeight st1.shelves :=
          grow_totalHeight st1 w h
        have hauto : (st1.grow w h).autoResize = true := by
          rw [grow_autoResize]
          exact har1
        have hW := grow_width_eq st1 w h
        have hH := grow_height_eq st1 w h
        by_cases hcase : st1.height < totalHeight st1.shelves + h
        · by_cases hgrh : st1.height < st1.width ∨ h > st1.height
          · -- the height grows strictly: the height deficit decreases
            have hh2 : st1.height + 1 ≤ (st1.grow w h).height := by
              rw [hH, if_pos hgrh]
              calc st1.height + 1 ≤ max h st1.height + 1 := by omega
              _ ≤ jsCeil125 (max h st1.height) :=
                  jsCeil125_ge_add_one _ (by omega)
            have hd2 : ((totalHeight (st1.grow w h).shelves + h) -
                (st1.grow w h).height).toNat < d := by
              rw [hY]
              omega
            obtain ⟨n, b, st3, hres⟩ := ihd _ hd2
              (((st1.grow w h).height + 1 - (st1.grow w h).width).toNat)
              (st1.grow w h) hauto (by rw [hY]; exact hy1) rfl rfl
            exact ⟨n + 1, b, st3, by rw [packOne_succ_inr hstep]; exact hres⟩
          · -- only the width grows (strictly): catch-up measure decreases
            push_neg at hgrh
            have hH2 : (st1.grow w h).height = st1.height := by
              rw [hH, if_neg (by push_neg; exact hgrh)]
            have hW2 : st1.width + 1 ≤ (st1.grow w h).width := by
              rw [hW, if_pos (Or.inl hgrh.1)]
              calc st1.width + 1 ≤ max w st1.width + 1 := by omega
              _ ≤ jsCeil125 (max w st1.width) :=
                  jsCeil125_ge_add_one _ (by omega)
            have hd2 : ((totalHeight (st1.grow w h).shelves + h) -
                (st1.grow w h).height).toNat = d := by
              rw [hY, hH2]
              exact hD
            have hc2 : (((st1.grow w h).height + 1 -
                (st1.grow w h).width)).toNat < c := by
              rw [hH2]
              omega
            obtain ⟨n, b, st3, hres⟩ := ihc _ hc2 (st1.grow w h) hauto
              (by rw [hY]; exact hy1) hd2 rfl
            exact ⟨n + 1, b, st3, by rw [packOne_succ_inr hstep]; exact hres⟩
        · -- the height already suffices, so the width was lacking;
          -- one growth makes the request fit
          have hwgt : st1.width < w := by
            by_contra hcon
            push_neg at hcon
            exact hnofit ⟨by omega, hcon⟩
          have hW2 : w ≤ (st1.grow w h).width := by
            rw [hW, if_pos (Or.inr hwgt)]
            rw [max_eq_left (by omega : st1.width ≤ w)]
            calc w ≤ w + 1 := by omega
            _ ≤ jsCeil125 w := jsCeil125_ge_add_one w hw
          have hH2 : st1.height ≤ (st1.grow w h).height := by
            rw [hH]
            by_cases hgrh : st1.height < st1.width ∨ h > st1.height
            · rw [if_pos hgrh]
              calc st1.height ≤ max h st1.height := le_max_right _ _
              _ ≤ jsCeil125 (max h st1.height) := jsCeil125_ge _ (by omega)
            · rw [if_neg hgrh]
          have hfits : totalHeight (st1.grow w h).shelves + h ≤
              (st1.grow w h).height := by
            rw [hY]
            omega
          obtain ⟨b, st3, hres⟩ := packOneStep_some_of_fits id hW2 hfits
          exact ⟨2, b, st3, by rw [packOne_succ_inr hstep, packOne_one_inl hres]⟩
  exact main _ _ st har hy rfl rfl

/-- Witness for `packOne_total_when_autoResize`: a 20×3 request on a
fresh 1×1 auto-resizing packer, instantiated at the promised fuel. -/
theorem packOne_total_when_autoResize_witness :
    ∃ n, ∀ m, n ≤ m → ∃ b st2,
      packOne m (ShelfPack.make 1 1 true) 20 3 "a" = (some b, st2) :=
  packOne_total_when_autoResize (ShelfPack.make 1 1 true) 20 3 "a"
    (by decide) (by decide) (by decide) (by decide)

end LiveAtlasProof
